import Mathlib

/-!
# bit7z: format registry, format detection and archive offsets

A shallow embedding of `src/bitformat.cpp` (the catalog of archive formats in
namespace `BitFormat`, the extension and signature tables, `readSignature`,
`detectFormatFromSig`, `detectFormatFromExt` and the methods of `BitInFormat` and
`BitInOutFormat`) and of `src/bitarchiveitemoffset.cpp` (increment and comparison of
`BitArchiveItemOffset`), together with theorems about them.

Conventions of the embedding:

* a byte is a `Fin 256`; a `uint64_t` or `uint32_t` is a `Nat`, with `% 2 ^ 64` or
  `% 2 ^ 32` written wherever the C++ operation can overflow (the left shift of the mask,
  the increment of an item index);
* the `IInStream` handed to the detector is a byte sequence and a read position;
* a `std::wstring` is the list of its characters;
* a function that reads, seeks or increments returns the new object next to its result;
* `throw BitException( msg )` is `Except.error msg`.
-/

namespace bit7z

/-- A byte of a stream or of a signature buffer. -/
abbrev Byte := Fin 256

/-! ## Descriptors -/

/-- The class `BitInFormat`: a descriptor holding the one-byte code `mValue`
(`unsigned char`). -/
structure BitInFormat where
  mValue : Fin 256
deriving DecidableEq, Repr

/-- Equality of detection results (a format or an exception message) is decidable. -/
instance : DecidableEq (Except String BitInFormat)
  | .ok a, .ok b => if h : a = b then isTrue (by rw [h]) else isFalse (fun e => h (by injection e))
  | .error a, .error b =>
    if h : a = b then isTrue (by rw [h]) else isFalse (fun e => h (by injection e))
  | .ok _, .error _ => isFalse (fun e => by cases e)
  | .error _, .ok _ => isFalse (fun e => by cases e)

/-- The method `BitInFormat::value()`: the code, widened to `int`. -/
def BitInFormat.value (f : BitInFormat) : Int := (f.mValue.val : Int)

/-- The operator `BitInFormat::operator==`: `mValue == other.value()`, the code of the
left operand (promoted to `int`) compared with the value of the right operand. -/
def BitInFormat.operatorEq (self other : BitInFormat) : Bool :=
  (self.mValue.val : Int) == other.value

/-- The operator `BitInFormat::operator!=`: `!( *this == other )`. -/
def BitInFormat.operatorNe (self other : BitInFormat) : Bool :=
  !(self.operatorEq other)

/-- The Windows type `GUID`: a 32-bit field, two 16-bit fields and eight bytes. -/
structure GUID where
  Data1 : Nat
  Data2 : Nat
  Data3 : Nat
  Data4 : List (Fin 256)
deriving DecidableEq, Repr

/-- The method `BitInFormat::guid()`:
`{ 0x23170F69, 0x40C1, 0x278A, { 0x10, 0x00, 0x00, 0x01, 0x10, mValue, 0x00, 0x00 } }`. -/
def BitInFormat.guid (self : BitInFormat) : GUID :=
  ⟨0x23170F69, 0x40C1, 0x278A, [0x10, 0x00, 0x00, 0x01, 0x10, self.mValue, 0x00, 0x00]⟩

/-! ## Offsets into an archive -/

/-- The class `BitArchiveItemOffset`: the index of an item, a `uint32_t` (the member
`mItemIndex` of the base class `BitArchiveItem`, which the constructor initialises from
its `uint32_t` argument), and the pointer `mArc` to the archive the item belongs to,
`none` for `nullptr` and otherwise the address of the archive. -/
structure BitArchiveItemOffset where
  mItemIndex : Nat
  mArc : Option Nat
deriving DecidableEq, Repr

/-- The constructor `BitArchiveItemOffset( item_index, item_arc )`: the index (a
`uint32_t`) and the address of the archive passed by reference. -/
def BitArchiveItemOffset.new (item_index : Nat) (item_arc : Nat) : BitArchiveItemOffset :=
  { mItemIndex := item_index % 2 ^ 32, mArc := some item_arc }

/-- The pre-increment `BitArchiveItemOffset::operator++()`: `++mItemIndex` in 32 bits,
then `return *this`. The result is the object the returned reference designates, next to
the object after the call. -/
def BitArchiveItemOffset.preIncrement (self : BitArchiveItemOffset) :
    BitArchiveItemOffset × BitArchiveItemOffset :=
  let self := { self with mItemIndex := (self.mItemIndex + 1) % 2 ^ 32 }
  (self, self)

/-- The post-increment `BitArchiveItemOffset::operator++( int )`: copy `*this` into
`retval`, pre-increment `*this`, return `retval`. The result is the value returned, next
to the object after the call. -/
def BitArchiveItemOffset.postIncrement (self : BitArchiveItemOffset) :
    BitArchiveItemOffset × BitArchiveItemOffset :=
  let retval := self
  let self := self.preIncrement.2
  (retval, self)

/-- The operator `BitArchiveItemOffset::operator==`: `mItemIndex == other.mItemIndex`. -/
def BitArchiveItemOffset.operatorEq (self other : BitArchiveItemOffset) : Bool :=
  self.mItemIndex == other.mItemIndex

/-- The operator `BitArchiveItemOffset::operator!=`: `!( *this == other )`. -/
def BitArchiveItemOffset.operatorNe (self other : BitArchiveItemOffset) : Bool :=
  !(self.operatorEq other)

/-! ## The seekable input stream -/

/-- The stream interface `IInStream` used by the detector: the bytes of the
underlying file or buffer and the current read position. The position may lie beyond
the end of the content (a seek past the end succeeds, later reads return no byte). -/
structure IInStream where
  content : List Byte
  pos : Nat
deriving DecidableEq, Repr

/-- The call `stream->Read( buf, size, nullptr )`: the bytes delivered into the buffer
(at most `size`, fewer when the content ends) and the stream advanced past them. -/
def IInStream.Read (stream : IInStream) (size : Nat) : List Byte × IInStream :=
  let data := (stream.content.drop stream.pos).take size
  (data, { stream with pos := stream.pos + data.length })

/-- The call `stream->Seek( offset, 0, nullptr )`: an absolute seek
(origin 0 is the start of the stream). -/
def IInStream.Seek (stream : IInStream) (offset : Nat) : IInStream :=
  { stream with pos := offset }

/-! ## Reading a signature -/

/-- The value of a `uint64_t` object whose bytes in memory, lowest address first, are
`buf` (little-endian layout, as on the targets that provide `_byteswap_uint64`). -/
def uint64OfMemory : List Byte → Nat
  | [] => 0
  | b :: bs => b.val + 256 * uint64OfMemory bs

/-- The intrinsic `_byteswap_uint64`: the eight bytes of the argument in reverse
order. -/
def _byteswap_uint64 (x : Nat) : Nat :=
  (x % 256) * 256 ^ 7 + (x / 256 % 256) * 256 ^ 6 + (x / 256 ^ 2 % 256) * 256 ^ 5
    + (x / 256 ^ 3 % 256) * 256 ^ 4 + (x / 256 ^ 4 % 256) * 256 ^ 3
    + (x / 256 ^ 5 % 256) * 256 ^ 2 + (x / 256 ^ 6 % 256) * 256 + (x / 256 ^ 7 % 256)

/-- The function `readSignature( stream, size )`, for `size <= 8`:
`signature` starts as 0, `Read` overwrites its first bytes in memory with the bytes
delivered, and the result is the byte-swapped value. -/
def readSignature (stream : IInStream) (size : Nat) : Nat × IInStream :=
  let r := stream.Read size
  let memory := (r.1 ++ List.replicate (8 - r.1.length) (0 : Byte)).take 8
  (_byteswap_uint64 (uint64OfMemory memory), r.2)

/-! ## The catalog (namespace `BitFormat`) -/

/-- Modelled from the spec: the enumeration `BitCompressionMethod` is declared in
`bitcompressionmethod.hpp`, which is not among the sources; the spec calls it the
"default compression method (enum)" of a read-write format. Only the members that the
catalog names are listed. -/
inductive BitCompressionMethod where
  | Copy
  | Deflate
  | BZip2
  | Lzma2
deriving DecidableEq, Repr

/-- Modelled from the spec: the type `FeaturesSet` is declared in `bitformat.hpp`, which
is not among the sources; the spec calls it "a feature bitmask (set of independent
boolean capability flags)". It is a bit mask, kept as a natural number. -/
abbrev FeaturesSet := Nat

/-- Modelled from the spec: the enumeration `FormatFeatures` is declared in
`bitformat.hpp`, which is not among the sources. The spec lists the seven flags
"multi-file, solid, compression-level, encryption, header-encryption, multiple-methods,
in-memory-compression" as independent bits of the mask. -/
inductive FormatFeatures where
  | MULTIPLE_FILES
  | SOLID_ARCHIVE
  | COMPRESSION_LEVEL
  | ENCRYPTION
  | HEADER_ENCRYPTION
  | INMEM_COMPRESSION
  | MULTIPLE_METHODS
deriving DecidableEq, Repr

/-- Modelled from the spec: the numeric values of the `FormatFeatures` enumerators are
declared in `bitformat.hpp`, which is not among the sources; each flag is one bit of its
own ("independent boolean capability flags"), here bit 0 to bit 6 in the order in which
the enumerators are listed above. -/
def FormatFeatures.toMask : FormatFeatures → FeaturesSet
  | .MULTIPLE_FILES => 1 <<< 0
  | .SOLID_ARCHIVE => 1 <<< 1
  | .COMPRESSION_LEVEL => 1 <<< 2
  | .ENCRYPTION => 1 <<< 3
  | .HEADER_ENCRYPTION => 1 <<< 4
  | .INMEM_COMPRESSION => 1 <<< 5
  | .MULTIPLE_METHODS => 1 <<< 6

/-- The class `BitInOutFormat`: a `BitInFormat` with a default extension, a default
compression method and the set of supported features. -/
structure BitInOutFormat extends BitInFormat where
  mExtension : String
  mDefaultMethod : BitCompressionMethod
  mFeatures : FeaturesSet
deriving DecidableEq, Repr

/-- The constructor `BitInOutFormat( value, ext, defaultMethod, features )`: the base
`BitInFormat( value )` and the three members initialised from the arguments. -/
def BitInOutFormat.new (value : Fin 256) (ext : String) (defaultMethod : BitCompressionMethod)
    (features : FeaturesSet) : BitInOutFormat :=
  { mValue := value, mExtension := ext, mDefaultMethod := defaultMethod, mFeatures := features }

/-- The method `BitInOutFormat::extension()`. -/
def BitInOutFormat.extension (self : BitInOutFormat) : String := self.mExtension

/-- The method `BitInOutFormat::features()`. -/
def BitInOutFormat.features (self : BitInOutFormat) : FeaturesSet := self.mFeatures

/-- The method `BitInOutFormat::hasFeature( feature )`:
`( mFeatures & FeaturesSet( feature ) ) != 0`. -/
def BitInOutFormat.hasFeature (self : BitInOutFormat) (feature : FormatFeatures) : Bool :=
  (self.mFeatures &&& feature.toMask) != 0

/-- The method `BitInOutFormat::defaultMethod()`. -/
def BitInOutFormat.defaultMethod (self : BitInOutFormat) : BitCompressionMethod :=
  self.mDefaultMethod

/-! ## Wide strings and the extension of a file name -/

/-- A `std::wstring`: the sequence of its characters. -/
abbrev wstring := List Char

/-- The element access `s[ i ]` of a `wstring`: the character at index `i`, the null
character at `i = s.size()`. -/
def wstringAt (s : wstring) (i : Nat) : Char := s.getD i (Char.ofNat 0)

/-- The library function `std::towlower`: the letters `A` to `Z` are mapped to `a` to
`z`, every other character is left as it is. -/
def towlower (c : Char) : Char := c.toLower

/-- The library function `iswdigit`, as a truth value: whether the character is one of
the decimal digits `0` to `9`. -/
def iswdigit (c : Char) : Bool := c.isDigit

/-- Modelled from the spec: the helper `filesystem::fsutil::filename` lives in
`fsutil.cpp`, which is not among the sources. The spec speaks of "the substring after
the final path separator"; the separators are `/` and the backslash. -/
def filesystem.fsutil.filename (path : wstring) : wstring :=
  (path.reverse.takeWhile (fun c => c != Char.ofNat 0x2F && c != Char.ofNat 0x5C)).reverse

/-- Modelled from the spec: the helper `filesystem::fsutil::extension` lives in
`fsutil.cpp`, which is not among the sources. The spec says: "extract the substring after
the final path separator and final dot; if absent, fail with a no-extension error", so
the extension is the part of the file name after its last dot, and empty when the file
name has no dot. -/
def filesystem.fsutil.extension (path : wstring) : wstring :=
  let name := filesystem.fsutil.filename path
  if name.contains (Char.ofNat 0x2E) then
    (name.reverse.takeWhile (fun c => c != Char.ofNat 0x2E)).reverse
  else []

namespace BitFormat

/-- The flag `MULTIPLE_FILES` as a mask, for the `|` expressions of the catalog. -/
abbrev MULTIPLE_FILES : FeaturesSet := FormatFeatures.MULTIPLE_FILES.toMask
/-- The flag `SOLID_ARCHIVE` as a mask. -/
abbrev SOLID_ARCHIVE : FeaturesSet := FormatFeatures.SOLID_ARCHIVE.toMask
/-- The flag `COMPRESSION_LEVEL` as a mask. -/
abbrev COMPRESSION_LEVEL : FeaturesSet := FormatFeatures.COMPRESSION_LEVEL.toMask
/-- The flag `ENCRYPTION` as a mask. -/
abbrev ENCRYPTION : FeaturesSet := FormatFeatures.ENCRYPTION.toMask
/-- The flag `HEADER_ENCRYPTION` as a mask. -/
abbrev HEADER_ENCRYPTION : FeaturesSet := FormatFeatures.HEADER_ENCRYPTION.toMask
/-- The flag `INMEM_COMPRESSION` as a mask. -/
abbrev INMEM_COMPRESSION : FeaturesSet := FormatFeatures.INMEM_COMPRESSION.toMask
/-- The flag `MULTIPLE_METHODS` as a mask. -/
abbrev MULTIPLE_METHODS : FeaturesSet := FormatFeatures.MULTIPLE_METHODS.toMask

/-- The read-only descriptor `BitFormat::Auto`, code `0x00`. -/
def Auto : BitInFormat := ⟨0x00⟩

/-- The read-write descriptor `BitFormat::Zip`, code `0x01`. -/
def Zip : BitInOutFormat :=
  ⟨⟨0x01⟩, ".zip", BitCompressionMethod.Deflate,
    MULTIPLE_FILES ||| COMPRESSION_LEVEL ||| ENCRYPTION ||| MULTIPLE_METHODS⟩

/-- The read-write descriptor `BitFormat::BZip2`, code `0x02`. -/
def BZip2 : BitInOutFormat :=
  ⟨⟨0x02⟩, ".bz2", BitCompressionMethod.BZip2,
    COMPRESSION_LEVEL ||| INMEM_COMPRESSION⟩

/-- The read-only descriptor `BitFormat::Rar`, code `0x03`. -/
def Rar : BitInFormat := ⟨0x03⟩

/-- The read-only descriptor `BitFormat::Arj`, code `0x04`. -/
def Arj : BitInFormat := ⟨0x04⟩

/-- The read-only descriptor `BitFormat::Z`, code `0x05`. -/
def Z : BitInFormat := ⟨0x05⟩

/-- The read-only descriptor `BitFormat::Lzh`, code `0x06`. -/
def Lzh : BitInFormat := ⟨0x06⟩

/-- The read-write descriptor `BitFormat::SevenZip`, code `0x07`. -/
def SevenZip : BitInOutFormat :=
  ⟨⟨0x07⟩, ".7z", BitCompressionMethod.Lzma2,
    MULTIPLE_FILES ||| SOLID_ARCHIVE ||| COMPRESSION_LEVEL |||
      ENCRYPTION ||| HEADER_ENCRYPTION ||| MULTIPLE_METHODS⟩

/-- The read-only descriptor `BitFormat::Cab`, code `0x08`. -/
def Cab : BitInFormat := ⟨0x08⟩

/-- The read-only descriptor `BitFormat::Nsis`, code `0x09`. -/
def Nsis : BitInFormat := ⟨0x09⟩

/-- The read-only descriptor `BitFormat::Lzma`, code `0x0A`. -/
def Lzma : BitInFormat := ⟨0x0A⟩

/-- The read-only descriptor `BitFormat::Lzma86`, code `0x0B`. -/
def Lzma86 : BitInFormat := ⟨0x0B⟩

/-- The read-write descriptor `BitFormat::Xz`, code `0x0C`. -/
def Xz : BitInOutFormat :=
  ⟨⟨0x0C⟩, ".xz", BitCompressionMethod.Lzma2,
    COMPRESSION_LEVEL ||| ENCRYPTION ||| HEADER_ENCRYPTION ||| INMEM_COMPRESSION⟩

/-- The read-only descriptor `BitFormat::Ppmd`, code `0x0D`. -/
def Ppmd : BitInFormat := ⟨0x0D⟩

/-- The read-only descriptor `BitFormat::COFF`, code `0xC6`. -/
def COFF : BitInFormat := ⟨0xC6⟩

/-- The read-only descriptor `BitFormat::Ext`, code `0xC7`. -/
def Ext : BitInFormat := ⟨0xC7⟩

/-- The read-only descriptor `BitFormat::VMDK`, code `0xC8`. -/
def VMDK : BitInFormat := ⟨0xC8⟩

/-- The read-only descriptor `BitFormat::VDI`, code `0xC9`. -/
def VDI : BitInFormat := ⟨0xC9⟩

/-- The read-only descriptor `BitFormat::QCow`, code `0xCA`. -/
def QCow : BitInFormat := ⟨0xCA⟩

/-- The read-only descriptor `BitFormat::GPT`, code `0xCB`. -/
def GPT : BitInFormat := ⟨0xCB⟩

/-- The read-only descriptor `BitFormat::Rar5`, code `0xCC`. -/
def Rar5 : BitInFormat := ⟨0xCC⟩

/-- The read-only descriptor `BitFormat::IHex`, code `0xCD`. -/
def IHex : BitInFormat := ⟨0xCD⟩

/-- The read-only descriptor `BitFormat::Hxs`, code `0xCE`. -/
def Hxs : BitInFormat := ⟨0xCE⟩

/-- The read-only descriptor `BitFormat::TE`, code `0xCF`. -/
def TE : BitInFormat := ⟨0xCF⟩

/-- The read-only descriptor `BitFormat::UEFIc`, code `0xD0`. -/
def UEFIc : BitInFormat := ⟨0xD0⟩

/-- The read-only descriptor `BitFormat::UEFIs`, code `0xD1`. -/
def UEFIs : BitInFormat := ⟨0xD1⟩

/-- The read-only descriptor `BitFormat::SquashFS`, code `0xD2`. -/
def SquashFS : BitInFormat := ⟨0xD2⟩

/-- The read-only descriptor `BitFormat::CramFS`, code `0xD3`. -/
def CramFS : BitInFormat := ⟨0xD3⟩

/-- The read-only descriptor `BitFormat::APM`, code `0xD4`. -/
def APM : BitInFormat := ⟨0xD4⟩

/-- The read-only descriptor `BitFormat::Mslz`, code `0xD5`. -/
def Mslz : BitInFormat := ⟨0xD5⟩

/-- The read-only descriptor `BitFormat::Flv`, code `0xD6`. -/
def Flv : BitInFormat := ⟨0xD6⟩

/-- The read-only descriptor `BitFormat::Swf`, code `0xD7`. -/
def Swf : BitInFormat := ⟨0xD7⟩

/-- The read-only descriptor `BitFormat::Swfc`, code `0xD8`. -/
def Swfc : BitInFormat := ⟨0xD8⟩

/-- The read-only descriptor `BitFormat::Ntfs`, code `0xD9`. -/
def Ntfs : BitInFormat := ⟨0xD9⟩

/-- The read-only descriptor `BitFormat::Fat`, code `0xDA`. -/
def Fat : BitInFormat := ⟨0xDA⟩

/-- The read-only descriptor `BitFormat::Mbr`, code `0xDB`. -/
def Mbr : BitInFormat := ⟨0xDB⟩

/-- The read-only descriptor `BitFormat::Vhd`, code `0xDC`. -/
def Vhd : BitInFormat := ⟨0xDC⟩

/-- The read-only descriptor `BitFormat::Pe`, code `0xDD`. -/
def Pe : BitInFormat := ⟨0xDD⟩

/-- The read-only descriptor `BitFormat::Elf`, code `0xDE`. -/
def Elf : BitInFormat := ⟨0xDE⟩

/-- The read-only descriptor `BitFormat::Macho`, code `0xDF`. -/
def Macho : BitInFormat := ⟨0xDF⟩

/-- The read-only descriptor `BitFormat::Udf`, code `0xE0`. -/
def Udf : BitInFormat := ⟨0xE0⟩

/-- The read-only descriptor `BitFormat::Xar`, code `0xE1`. -/
def Xar : BitInFormat := ⟨0xE1⟩

/-- The read-only descriptor `BitFormat::Mub`, code `0xE2`. -/
def Mub : BitInFormat := ⟨0xE2⟩

/-- The read-only descriptor `BitFormat::Hfs`, code `0xE3`. -/
def Hfs : BitInFormat := ⟨0xE3⟩

/-- The read-only descriptor `BitFormat::Dmg`, code `0xE4`. -/
def Dmg : BitInFormat := ⟨0xE4⟩

/-- The read-only descriptor `BitFormat::Compound`, code `0xE5`. -/
def Compound : BitInFormat := ⟨0xE5⟩

/-- The read-write descriptor `BitFormat::Wim`, code `0xE6`. -/
def Wim : BitInOutFormat :=
  ⟨⟨0xE6⟩, ".wim", BitCompressionMethod.Copy,
    MULTIPLE_FILES⟩

/-- The read-only descriptor `BitFormat::Iso`, code `0xE7`. -/
def Iso : BitInFormat := ⟨0xE7⟩

/-- The read-only descriptor `BitFormat::Chm`, code `0xE9`. -/
def Chm : BitInFormat := ⟨0xE9⟩

/-- The read-only descriptor `BitFormat::Split`, code `0xEA`. -/
def Split : BitInFormat := ⟨0xEA⟩

/-- The read-only descriptor `BitFormat::Rpm`, code `0xEB`. -/
def Rpm : BitInFormat := ⟨0xEB⟩

/-- The read-only descriptor `BitFormat::Deb`, code `0xEC`. -/
def Deb : BitInFormat := ⟨0xEC⟩

/-- The read-only descriptor `BitFormat::Cpio`, code `0xED`. -/
def Cpio : BitInFormat := ⟨0xED⟩

/-- The read-write descriptor `BitFormat::Tar`, code `0xEE`. -/
def Tar : BitInOutFormat :=
  ⟨⟨0xEE⟩, ".tar", BitCompressionMethod.Copy,
    MULTIPLE_FILES ||| INMEM_COMPRESSION⟩

/-- The read-write descriptor `BitFormat::GZip`, code `0xEF`. -/
def GZip : BitInOutFormat :=
  ⟨⟨0xEF⟩, ".gz", BitCompressionMethod.Deflate,
    COMPRESSION_LEVEL ||| INMEM_COMPRESSION⟩

/-! ## The extension table -/

/-- The table `common_extensions` (an `unordered_map` from the extension to the format),
as the list of its initialisers in source order. -/
def common_extensions : List (wstring × BitInFormat) :=
  [
    ("7z".toList, SevenZip.toBitInFormat),
    ("bzip2".toList, BZip2.toBitInFormat),
    ("bz2".toList, BZip2.toBitInFormat),
    ("tbz2".toList, BZip2.toBitInFormat),
    ("tbz".toList, BZip2.toBitInFormat),
    ("gz".toList, GZip.toBitInFormat),
    ("gzip".toList, GZip.toBitInFormat),
    ("tgz".toList, GZip.toBitInFormat),
    ("tar".toList, Tar.toBitInFormat),
    ("wim".toList, Wim.toBitInFormat),
    ("swm".toList, Wim.toBitInFormat),
    ("xz".toList, Xz.toBitInFormat),
    ("txz".toList, Xz.toBitInFormat),
    ("zip".toList, Zip.toBitInFormat),
    ("zipx".toList, Zip.toBitInFormat),
    ("jar".toList, Zip.toBitInFormat),
    ("xpi".toList, Zip.toBitInFormat),
    ("odt".toList, Zip.toBitInFormat),
    ("ods".toList, Zip.toBitInFormat),
    ("odp".toList, Zip.toBitInFormat),
    ("docx".toList, Zip.toBitInFormat),
    ("xlsx".toList, Zip.toBitInFormat),
    ("pptx".toList, Zip.toBitInFormat),
    ("epub".toList, Zip.toBitInFormat),
    ("001".toList, Split),
    ("ar".toList, Deb),
    ("apm".toList, APM),
    ("arj".toList, Arj),
    ("cab".toList, Cab),
    ("chm".toList, Chm),
    ("chi".toList, Chm),
    ("msi".toList, Compound),
    ("doc".toList, Compound),
    ("xls".toList, Compound),
    ("ppt".toList, Compound),
    ("msg".toList, Compound),
    ("obj".toList, COFF),
    ("cpio".toList, Cpio),
    ("cramfs".toList, CramFS),
    ("deb".toList, Deb),
    ("dmg".toList, Dmg),
    ("dll".toList, Pe),
    ("dylib".toList, Macho),
    ("exe".toList, Pe),
    ("ext".toList, Ext),
    ("ext2".toList, Ext),
    ("ext3".toList, Ext),
    ("ext4".toList, Ext),
    ("fat".toList, Fat),
    ("flv".toList, Flv),
    ("gpt".toList, GPT),
    ("hfs".toList, Hfs),
    ("hfsx".toList, Hfs),
    ("hxs".toList, Hxs),
    ("ihex".toList, IHex),
    ("lzh".toList, Lzh),
    ("lha".toList, Lzh),
    ("lzma".toList, Lzma),
    ("lzma86".toList, Lzma86),
    ("mbr".toList, Mbr),
    ("mslz".toList, Mslz),
    ("mub".toList, Mub),
    ("nsis".toList, Nsis),
    ("ntfs".toList, Ntfs),
    ("pmd".toList, Ppmd),
    ("qcow".toList, QCow),
    ("qcow2".toList, QCow),
    ("qcow2c".toList, QCow),
    ("rpm".toList, Rpm),
    ("squashfs".toList, SquashFS),
    ("te".toList, TE),
    ("udf".toList, Udf),
    ("scap".toList, UEFIc),
    ("uefif".toList, UEFIs),
    ("vmdk".toList, VMDK),
    ("vdi".toList, VDI),
    ("vhd".toList, Vhd),
    ("xar".toList, Xar),
    ("pkg".toList, Xar),
    ("z".toList, Z),
    ("taz".toList, Z)
  ]

/-! ## The signature tables -/

/-- The table `common_signatures` (an `unordered_map` from the 64-bit signature to the
format), as the list of its initialisers in source order. Signatures shorter than eight
bytes have their remaining bytes set to 0. -/
def common_signatures : List (Nat × BitInFormat) :=
  [
    (0x526172211A070000, Rar),
    (0x526172211A070100, Rar5),
    (0x377ABCAF271C0000, SevenZip.toBitInFormat),
    (0x425A680000000000, BZip2.toBitInFormat),
    (0x1F8B080000000000, GZip.toBitInFormat),
    (0x4D5357494D000000, Wim.toBitInFormat),
    (0xFD377A585A000000, Xz.toBitInFormat),
    (0x504B000000000000, Zip.toBitInFormat),
    (0x4552000000000000, APM),
    (0x60EA000000000000, Arj),
    (0x4D53434600000000, Cab),
    (0x4954534603000000, Chm),
    (0xD0CF11E0A1B11AE1, Compound),
    (0xC771000000000000, Cpio),
    (0x71C7000000000000, Cpio),
    (0x3037303730000000, Cpio),
    (0x213C617263683E00, Deb),
    (0x7F454C4600000000, Elf),
    (0x4D5A000000000000, Pe),
    (0x464C560100000000, Flv),
    (0x5D00000000000000, Lzma),
    (0x015D000000000000, Lzma86),
    (0xCEFAEDFE00000000, Macho),
    (0xCFFAEDFE00000000, Macho),
    (0xFEEDFACE00000000, Macho),
    (0xFEEDFACF00000000, Macho),
    (0xCAFEBABE00000000, Mub),
    (0xB9FAF10E00000000, Mub),
    (0x535A444488F02733, Mslz),
    (0x8FAFAC8400000000, Ppmd),
    (0x514649FB00000000, QCow),
    (0xEDABEEDB00000000, Rpm),
    (0x7371736800000000, SquashFS),
    (0x6873717300000000, SquashFS),
    (0x7368737100000000, SquashFS),
    (0x7173687300000000, SquashFS),
    (0x4657530000000000, Swf),
    (0x4357530000000000, Swfc),
    (0x5A57530000000000, Swfc),
    (0x565A000000000000, TE),
    (0x4B444D0000000000, VMDK),
    (0x3C3C3C2000000000, VDI),
    (0x636F6E6563746978, Vhd),
    (0x78617221001C0000, Xar),
    (0x1F9D000000000000, Z),
    (0x1FA0000000000000, Z)
  ]

/-- The call `common_signatures.find( file_signature )`: the format stored under the
key, `none` for `common_signatures.end()`. -/
def common_signatures_find (file_signature : Nat) : Option BitInFormat :=
  common_signatures.lookup file_signature

/-- The struct `OffsetSignature`: a signature, the offset at which it is expected, the
number of its significant bytes and the format it identifies. -/
structure OffsetSignature where
  signature : Nat
  offset : Nat
  size : Nat
  format : BitInFormat
deriving DecidableEq, Repr

/-- The array `common_signatures_with_offset`, in declaration order. GPT images also hold
the FAT signature, so the GPT entry comes before the Fat entry. -/
def common_signatures_with_offset : List OffsetSignature :=
  [
    ⟨0x2D6C680000000000, 0x02, 3, Lzh⟩,
    ⟨0x4E54465320202020, 0x03, 8, Ntfs⟩,
    ⟨0x4E756C6C736F6674, 0x08, 8, Nsis⟩,
    ⟨0x436F6D7072657373, 0x10, 8, CramFS⟩,
    ⟨0x7F10DABE00000000, 0x40, 4, VDI⟩,
    ⟨0x7573746172000000, 0x101, 5, Tar.toBitInFormat⟩,
    ⟨0x4546492050415254, 0x200, 8, GPT⟩,
    ⟨0x55AA000000000000, 0x1FE, 2, Fat⟩,
    ⟨0x4244000000000000, 0x400, 2, Hfs⟩,
    ⟨0x482B000400000000, 0x400, 4, Hfs⟩,
    ⟨0x4858000500000000, 0x400, 4, Hfs⟩,
    ⟨0x53EF000000000000, 0x438, 2, Ext⟩
  ]

/-! ## Signature detection -/

/-- The constant `SIGNATURE_SIZE` of `detectFormatFromSig`. -/
def SIGNATURE_SIZE : Nat := 8

/-- The constant `ISO_SIGNATURE`, the bytes `CD001`. -/
def ISO_SIGNATURE : Nat := 0x4344303031000000

/-- The constant `ISO_SIGNATURE_SIZE`. -/
def ISO_SIGNATURE_SIZE : Nat := 5

/-- The constant `ISO_SIGNATURE_OFFSET`. -/
def ISO_SIGNATURE_OFFSET : Nat := 0x8001

/-- The constant `MAX_VOLUME_DESCRIPTORS`. -/
def MAX_VOLUME_DESCRIPTORS : Nat := 16

/-- The constant `ISO_VOLUME_DESCRIPTOR_SIZE` (2048). -/
def ISO_VOLUME_DESCRIPTOR_SIZE : Nat := 0x800

/-- The constant `UDF_SIGNATURE`, the bytes `NSR0`. -/
def UDF_SIGNATURE : Nat := 0x4E53523000000000

/-- The constant `UDF_SIGNATURE_SIZE`. -/
def UDF_SIGNATURE_SIZE : Nat := 4

/-- The first loop of `detectFormatFromSig`,
`for ( auto i = 0u; i < SIGNATURE_SIZE - 1; ++i )`, with `remaining` iterations still to
run: look the signature up, and on a miss shift the mask left by one byte (in 64 bits)
and clear the masked bytes of the signature. The result is the format found, `none`
when the loop ends without a hit. -/
def signatureLoop : (remaining : Nat) → (file_signature signature_mask : Nat) →
    Option BitInFormat
  | 0, _, _ => none
  | remaining + 1, file_signature, signature_mask =>
    match common_signatures_find file_signature with
    | some format => some format
    | none =>
      let signature_mask := (signature_mask <<< 8) % 2 ^ 64
      signatureLoop remaining (file_signature &&& signature_mask) signature_mask

/-- The second loop of `detectFormatFromSig`, `for ( auto& sig : ... )` over the entries
still to try: seek to the entry's offset, read its `size` bytes and compare with its
signature; on a hit seek back to 0 and return the entry's format. The result is that
format (`none` when the loop ends without a hit) and the stream as the loop leaves it. -/
def offsetLoop : List OffsetSignature → IInStream → Option BitInFormat × IInStream
  | [], stream => (none, stream)
  | sig :: rest, stream =>
    let r := readSignature (stream.Seek sig.offset) sig.size
    if r.1 = sig.signature then (some sig.format, r.2.Seek 0) else offsetLoop rest r.2

/-- The third loop of `detectFormatFromSig`,
`for ( auto descriptor_index = 1ull; descriptor_index < MAX_VOLUME_DESCRIPTORS; ++descriptor_index )`,
with `remaining = MAX_VOLUME_DESCRIPTORS - descriptor_index` iterations still to run:
seek to the descriptor and compare its first four bytes with `UDF_SIGNATURE`; on a hit
seek back to 0 and return. The result tells whether a descriptor matched (the function
then returns `Udf`), next to the stream as the loop leaves it. -/
def udfLoop : (remaining descriptor_index : Nat) → IInStream → Bool × IInStream
  | 0, _, stream => (false, stream)
  | remaining + 1, descriptor_index, stream =>
    let r := readSignature
      (stream.Seek (ISO_SIGNATURE_OFFSET + descriptor_index * ISO_VOLUME_DESCRIPTOR_SIZE))
      UDF_SIGNATURE_SIZE
    if r.1 = UDF_SIGNATURE then (true, r.2.Seek 0)
    else udfLoop remaining (descriptor_index + 1) r.2

/-- The function `detectFormatFromSig( stream )`: the format found, or the exception
thrown, next to the stream as the call leaves it. -/
def detectFormatFromSig (stream : IInStream) : Except String BitInFormat × IInStream :=
  let r := readSignature stream SIGNATURE_SIZE
  match signatureLoop (SIGNATURE_SIZE - 1) r.1 0xFFFFFFFFFFFFFFFF with
  | some format => (.ok format, r.2.Seek 0)
  | none =>
    match offsetLoop common_signatures_with_offset r.2 with
    | (some format, stream) => (.ok format, stream)
    | (none, stream) =>
      -- Detecting ISO/UDF
      let r := readSignature (stream.Seek ISO_SIGNATURE_OFFSET) ISO_SIGNATURE_SIZE
      if r.1 = ISO_SIGNATURE then
        -- The file is ISO, checking if it is also UDF!
        match udfLoop (MAX_VOLUME_DESCRIPTORS - 1) 1 r.2 with
        | (true, stream) => (.ok Udf, stream)
        | (false, stream) => (.ok Iso, stream.Seek 0)
      else
        (.error "Cannot detect the format of the file", r.2.Seek 0)

/-! ## Extension detection -/

/-- The function `detectFormatFromExt( in_file )`: the format found (`Auto` when the
extension is not recognised), or the exception thrown when there is no extension. -/
def detectFormatFromExt (in_file : wstring) : Except String BitInFormat :=
  let ext := filesystem.fsutil.extension in_file
  if ext.isEmpty then
    .error "Cannot detect the archive format from the extension"
  else
    let ext := ext.map towlower
    -- Detecting archives with common file extensions
    match common_extensions.lookup ext with
    | some format => .ok format -- extension found in map
    | none =>
      -- Detecting multivolume archives extension
      if (wstringAt ext 0 == 'r' || wstringAt ext 0 == 'z') &&
          (ext.length == 3 && iswdigit (wstringAt ext 1) && iswdigit (wstringAt ext 2)) then
        -- Extension follows the format zXX or rXX, where X is a number in range [0-9]
        .ok (if wstringAt ext 0 == 'r' then Rar else Zip.toBitInFormat)
      else
        -- The extension did not match any known format extension
        .ok Auto

/-! ## Content-level notions used to state the properties -/

/-- The bytes of `content` at offsets `offset .. offset + size - 1`, as far as the
content reaches (fewer than `size` bytes, possibly none, near or past the end). -/
def bytesAt (content : List Byte) (offset size : Nat) : List Byte :=
  (content.drop offset).take size

/-- The value of a byte sequence read as a big-endian number: the first byte is the
most significant one. -/
def bigEndian (bs : List Byte) : Nat :=
  bs.foldl (fun acc b => acc * 256 + b.val) 0

/-- The 64-bit big-endian value of at most eight bytes, zero-padded on the right when
there are fewer than eight. -/
def paddedSignature (bs : List Byte) : Nat :=
  bigEndian ((bs ++ List.replicate (8 - bs.length) (0 : Byte)).take 8)

/-- The value `s` with all but its `k` most significant bytes (of eight) cleared. -/
def clearLow (s k : Nat) : Nat :=
  s / 256 ^ (8 - k) * 256 ^ (8 - k)

/-- The result of matching a 64-bit signature `s` against the zero-offset table by
prefixes: the format stored under `s` with only its `k` most significant bytes kept, for
the largest `k` from 8 down to 2 for which that value is a key; `none` when there is no
such `k`. -/
def zeroOffsetMatch (s : Nat) : Option BitInFormat :=
  [8, 7, 6, 5, 4, 3, 2].findSome? (fun k => common_signatures_find (clearLow s k))

/-- Whether an offset-anchored entry matches the content: the `size` bytes at its offset
(as far as the content reaches), as a zero-padded big-endian value, equal its
signature. -/
def OffsetSignature.matchesAt (sig : OffsetSignature) (content : List Byte) : Bool :=
  decide (paddedSignature (bytesAt content sig.offset sig.size) = sig.signature)

/-- The format of the first entry of `common_signatures_with_offset`, in declaration
order, that matches the content; `none` when no entry matches. -/
def offsetMatch (content : List Byte) : Option BitInFormat :=
  (common_signatures_with_offset.find? (fun sig => sig.matchesAt content)).map (·.format)

/-- Whether the content holds the ISO signature `CD001` at offset `0x8001`. -/
def isoMatch (content : List Byte) : Bool :=
  decide (paddedSignature (bytesAt content ISO_SIGNATURE_OFFSET ISO_SIGNATURE_SIZE)
    = ISO_SIGNATURE)

/-- Whether the volume descriptor with index `k` (at offset `0x8001 + k * 2048`) starts
with the UDF signature `NSR0`. -/
def udfMatchAt (content : List Byte) (k : Nat) : Bool :=
  decide (paddedSignature
    (bytesAt content (ISO_SIGNATURE_OFFSET + k * ISO_VOLUME_DESCRIPTOR_SIZE)
      UDF_SIGNATURE_SIZE) = UDF_SIGNATURE)

/-- The outcome of signature detection described on the content alone, for a stream
whose position is `pos` when detection starts: the prefix lookup of the eight bytes at
`pos`, else the first matching offset entry, else the ISO/UDF probe over the descriptors
1 to 15, else the detection error. -/
def detectOutcome (content : List Byte) (pos : Nat) : Except String BitInFormat :=
  match zeroOffsetMatch (paddedSignature (bytesAt content pos SIGNATURE_SIZE)) with
  | some format => .ok format
  | none =>
    match offsetMatch content with
    | some format => .ok format
    | none =>
      if isoMatch content then
        if (List.range (MAX_VOLUME_DESCRIPTORS - 1)).any
            (fun i => udfMatchAt content (1 + i)) then .ok Udf
        else .ok Iso
      else .error "Cannot detect the format of the file"

/-- A test image for the ISO/UDF probe: `0x8001` zero bytes, the ISO signature `CD001`,
zero bytes up to volume descriptor `k`, and the UDF signature `NSR0` at the start of that
descriptor (offset `0x8001 + k * 2048`); for `k >= 1`. -/
def udfAtSlot (k : Nat) : List Byte :=
  List.replicate 0x8001 0 ++ ([0x43, 0x44, 0x30, 0x30, 0x31]
    ++ (List.replicate (k * 0x800 - 5) 0 ++ [0x4E, 0x53, 0x52, 0x30]))

/-! ## Notions used to state the properties of the registry -/

/-- The descriptors declared in namespace `BitFormat`, in declaration order, each as the
`BitInFormat` that `operator==` compares. -/
def catalog : List BitInFormat :=
  [Auto, Zip.toBitInFormat, BZip2.toBitInFormat, Rar, Arj, Z, Lzh, SevenZip.toBitInFormat,
   Cab, Nsis, Lzma, Lzma86, Xz.toBitInFormat, Ppmd, COFF, Ext, VMDK, VDI, QCow, GPT, Rar5,
   IHex, Hxs, TE, UEFIc, UEFIs, SquashFS, CramFS, APM, Mslz, Flv, Swf, Swfc, Ntfs, Fat, Mbr,
   Vhd, Pe, Elf, Macho, Udf, Xar, Mub, Hfs, Dmg, Compound, Wim.toBitInFormat, Iso, Chm,
   Split, Rpm, Deb, Cpio, Tar.toBitInFormat, GZip.toBitInFormat]

/-- The read-write descriptors declared in namespace `BitFormat`, in declaration
order. -/
def readWriteCatalog : List BitInOutFormat :=
  [Zip, BZip2, SevenZip, Xz, Wim, Tar, GZip]

/-- The feature set written `f1 | f2 | ...` in a constructor call: the flags of the list
OR-ed together. -/
def featuresOf (flags : List FormatFeatures) : FeaturesSet :=
  flags.foldl (fun set flag => set ||| flag.toMask) 0

/-- Whether an extension has the shape of a split-volume suffix: the letter `r` or `z`
followed by exactly two decimal digits. -/
def isSplitVolumeSuffix (ext : wstring) : Bool :=
  match ext with
  | [letter, d1, d2] => (letter == 'r' || letter == 'z') && d1.isDigit && d2.isDigit
  | _ => false

/-- The leading bytes of an offset-anchored entry: the `size` most significant bytes of
its 64-bit signature, the most significant first. -/
def OffsetSignature.leadingBytes (sig : OffsetSignature) : List Byte :=
  (List.range sig.size).map (fun i => Fin.ofNat (sig.signature / 256 ^ (7 - i) % 256))

/-- Whether the `size` bytes read at the offset of an entry equal its leading bytes
exactly; a read that delivers fewer than `size` bytes is not equal to them. -/
def OffsetSignature.exactAt (sig : OffsetSignature) (content : List Byte) : Bool :=
  decide (bytesAt content sig.offset sig.size = sig.leadingBytes)

end BitFormat

end bit7z

/-! # Lemmas -/

namespace bit7z
namespace BitFormat

/-! ## Reading a signature yields the big-endian value of the bytes read -/

theorem low_byte (b r : Nat) (hb : b < 256) : (b + 256 * r) % 256 = b := by omega

theorem high_bytes (b r : Nat) (hb : b < 256) : (b + 256 * r) / 256 = r := by omega

theorem div_pow_succ (x k : Nat) : x / 256 ^ (k + 1) = x / 256 ^ k / 256 := by
  rw [Nat.pow_succ, Nat.div_div_eq_div_mul]

theorem byteswap_memory (m0 m1 m2 m3 m4 m5 m6 m7 : Byte) :
    _byteswap_uint64 (uint64OfMemory [m0, m1, m2, m3, m4, m5, m6, m7])
      = bigEndian [m0, m1, m2, m3, m4, m5, m6, m7] := by
  simp only [uint64OfMemory, _byteswap_uint64, bigEndian, List.foldl]
  generalize hr7 : (m7 : Nat) + 256 * 0 = r7
  generalize hr6 : (m6 : Nat) + 256 * r7 = r6
  generalize hr5 : (m5 : Nat) + 256 * r6 = r5
  generalize hr4 : (m4 : Nat) + 256 * r5 = r4
  generalize hr3 : (m3 : Nat) + 256 * r4 = r3
  generalize hr2 : (m2 : Nat) + 256 * r3 = r2
  generalize hr1 : (m1 : Nat) + 256 * r2 = r1
  generalize hx : (m0 : Nat) + 256 * r1 = x
  have d0 : x % 256 = m0 := by rw [← hx]; exact low_byte _ _ m0.isLt
  have q1 : x / 256 = r1 := by rw [← hx]; exact high_bytes _ _ m0.isLt
  have d1 : x / 256 % 256 = m1 := by rw [q1, ← hr1]; exact low_byte _ _ m1.isLt
  have q2 : x / 256 ^ 2 = r2 := by
    rw [div_pow_succ, pow_one, q1, ← hr1]; exact high_bytes _ _ m1.isLt
  have d2 : x / 256 ^ 2 % 256 = m2 := by rw [q2, ← hr2]; exact low_byte _ _ m2.isLt
  have q3 : x / 256 ^ 3 = r3 := by
    rw [div_pow_succ, q2, ← hr2]; exact high_bytes _ _ m2.isLt
  have d3 : x / 256 ^ 3 % 256 = m3 := by rw [q3, ← hr3]; exact low_byte _ _ m3.isLt
  have q4 : x / 256 ^ 4 = r4 := by
    rw [div_pow_succ, q3, ← hr3]; exact high_bytes _ _ m3.isLt
  have d4 : x / 256 ^ 4 % 256 = m4 := by rw [q4, ← hr4]; exact low_byte _ _ m4.isLt
  have q5 : x / 256 ^ 5 = r5 := by
    rw [div_pow_succ, q4, ← hr4]; exact high_bytes _ _ m4.isLt
  have d5 : x / 256 ^ 5 % 256 = m5 := by rw [q5, ← hr5]; exact low_byte _ _ m5.isLt
  have q6 : x / 256 ^ 6 = r6 := by
    rw [div_pow_succ, q5, ← hr5]; exact high_bytes _ _ m5.isLt
  have d6 : x / 256 ^ 6 % 256 = m6 := by rw [q6, ← hr6]; exact low_byte _ _ m6.isLt
  have q7 : x / 256 ^ 7 = r7 := by
    rw [div_pow_succ, q6, ← hr6]; exact high_bytes _ _ m6.isLt
  have d7 : x / 256 ^ 7 % 256 = m7 := by rw [q7, ← hr7]; exact low_byte _ _ m7.isLt
  rw [d0, d1, d2, d3, d4, d5, d6, d7]
  ring

theorem bytesAt_length_le (content : List Byte) (offset size : Nat) :
    (bytesAt content offset size).length ≤ size := by
  simp [bytesAt]

theorem byteswap_padded (bs : List Byte) (hlen : bs.length ≤ 8) :
    _byteswap_uint64 (uint64OfMemory ((bs ++ List.replicate (8 - bs.length) (0 : Byte)).take 8))
      = paddedSignature bs := by
  unfold paddedSignature
  rcases bs with _ | ⟨b0, _ | ⟨b1, _ | ⟨b2, _ | ⟨b3, _ | ⟨b4, _ | ⟨b5, _ | ⟨b6, _ |
    ⟨b7, _ | ⟨b8, bs⟩⟩⟩⟩⟩⟩⟩⟩⟩
  · exact byteswap_memory 0 0 0 0 0 0 0 0
  · exact byteswap_memory b0 0 0 0 0 0 0 0
  · exact byteswap_memory b0 b1 0 0 0 0 0 0
  · exact byteswap_memory b0 b1 b2 0 0 0 0 0
  · exact byteswap_memory b0 b1 b2 b3 0 0 0 0
  · exact byteswap_memory b0 b1 b2 b3 b4 0 0 0
  · exact byteswap_memory b0 b1 b2 b3 b4 b5 0 0
  · exact byteswap_memory b0 b1 b2 b3 b4 b5 b6 0
  · exact byteswap_memory b0 b1 b2 b3 b4 b5 b6 b7
  · simp at hlen

theorem readSignature_fst (stream : IInStream) (size : Nat) (hsize : size ≤ 8) :
    (readSignature stream size).1
      = paddedSignature (bytesAt stream.content stream.pos size) :=
  byteswap_padded _ (le_trans (bytesAt_length_le _ _ _) hsize)

theorem readSignature_snd (stream : IInStream) (size : Nat) :
    (readSignature stream size).2
      = ⟨stream.content, stream.pos + (bytesAt stream.content stream.pos size).length⟩ := by
  rfl

/-! ## The mask of the first loop -/

theorem land_high_mask (x n : Nat) (hx : x < 2 ^ 64) (hn : n ≤ 64) :
    x &&& ((2 ^ (64 - n) - 1) <<< n) = x / 2 ^ n * 2 ^ n := by
  rw [← Nat.shiftRight_eq_div_pow, ← Nat.shiftLeft_eq]
  apply Nat.eq_of_testBit_eq
  intro i
  simp only [Nat.testBit_and, Nat.testBit_shiftLeft, Nat.testBit_shiftRight,
    Nat.testBit_two_pow_sub_one]
  by_cases h : n ≤ i
  · have e : n + (i - n) = i := by omega
    rw [e]
    by_cases h64 : i < 64
    · have : i - n < 64 - n := by omega
      simp [h, this]
    · have hlt : x < 2 ^ i :=
        lt_of_lt_of_le hx (Nat.pow_le_pow_right (by decide) (by omega))
      simp [Nat.testBit_lt_two_pow hlt]
  · simp [h]

theorem mask_step (x : Nat) (hx : x < 2 ^ 64) (j : Nat) (hj : j ≤ 8) :
    x &&& ((2 ^ (64 - 8 * j) - 1) <<< (8 * j)) = clearLow x (8 - j) := by
  rw [land_high_mask x (8 * j) hx (by omega)]
  unfold clearLow
  have : 8 - (8 - j) = j := by omega
  rw [this, pow_mul]
  norm_num

/-! ## The first loop looks up the longest matching byte prefix -/

theorem clearLow_le (v k : Nat) : clearLow v k ≤ v :=
  Nat.div_mul_le_self v _

theorem clearLow_clearLow (v k : Nat) (hk : k + 1 ≤ 8) :
    clearLow (clearLow v (k + 1)) k = clearLow v k := by
  unfold clearLow
  have e : 8 - k = (8 - (k + 1)) + 1 := by omega
  rw [e, pow_succ]
  generalize 256 ^ (8 - (k + 1)) = a
  rcases Nat.eq_zero_or_pos a with h | h
  · subst h; simp
  · rw [← Nat.div_div_eq_div_mul (v / a * a), Nat.mul_div_cancel _ h,
      Nat.div_div_eq_div_mul]

theorem clearLow_eight (v : Nat) : clearLow v 8 = v := by
  simp [clearLow]

theorem mask_shift (j : Nat) (hj : j + 1 ≤ 8) :
    (((2 ^ (64 - 8 * j) - 1) <<< (8 * j)) <<< 8) % 2 ^ 64
      = (2 ^ (64 - 8 * (j + 1)) - 1) <<< (8 * (j + 1)) := by
  have : j ≤ 7 := by omega
  interval_cases j <;> rfl

theorem signatureLoop_aux (v : Nat) (hv : v < 2 ^ 64) :
    ∀ (n j : Nat), j + n ≤ 8 →
      signatureLoop n (clearLow v (8 - j)) ((2 ^ (64 - 8 * j) - 1) <<< (8 * j))
        = ((List.range n).map (fun i => 8 - j - i)).findSome?
            (fun k => common_signatures_find (clearLow v k)) := by
  intro n
  induction n with
  | zero => intro j _; rfl
  | succ n ih =>
    intro j hj
    rw [List.range_succ_eq_map, List.map_cons, List.findSome?_cons, signatureLoop]
    simp only [Nat.sub_zero]
    cases hfind : common_signatures_find (clearLow v (8 - j)) with
    | some f => rfl
    | none =>
      simp only []
      rw [mask_shift j (by omega),
        mask_step _ (lt_of_le_of_lt (clearLow_le _ _) hv) (j + 1) (by omega)]
      have e : 8 - j = (8 - (j + 1)) + 1 := by omega
      rw [e, clearLow_clearLow v _ (by omega), ih (j + 1) (by omega), List.map_map]
      congr 1
      apply List.map_congr_left
      intro i _
      simp only [Function.comp]
      omega

theorem signatureLoop_eq (v : Nat) (hv : v < 2 ^ 64) :
    signatureLoop (SIGNATURE_SIZE - 1) v 0xFFFFFFFFFFFFFFFF = zeroOffsetMatch v := by
  have h := signatureLoop_aux v hv 7 0 (by decide)
  rw [show 8 - 0 = 8 from rfl, clearLow_eight] at h
  exact h

/-! ## The loops described on the content -/

theorem bigEndian_foldl_lt (bs : List Byte) :
    ∀ acc n : Nat, acc < 256 ^ n →
      bs.foldl (fun acc b => acc * 256 + b.val) acc < 256 ^ (n + bs.length) := by
  induction bs with
  | nil => intro acc n h; simpa using h
  | cons b bs ih =>
    intro acc n h
    rw [List.foldl_cons, List.length_cons, ← Nat.add_assoc, Nat.add_right_comm]
    apply ih
    have hb := b.isLt
    rw [pow_succ]
    have : acc + 1 ≤ 256 ^ n := h
    calc acc * 256 + b.val < (acc + 1) * 256 := by omega
      _ ≤ 256 ^ n * 256 := Nat.mul_le_mul_right _ this

theorem paddedSignature_lt (bs : List Byte) : paddedSignature bs < 2 ^ 64 := by
  unfold paddedSignature bigEndian
  have h := bigEndian_foldl_lt
    ((bs ++ List.replicate (8 - bs.length) (0 : Byte)).take 8) 0 0 (by norm_num)
  have hl : ((bs ++ List.replicate (8 - bs.length) (0 : Byte)).take 8).length ≤ 8 := by
    simp
  refine lt_of_lt_of_le h ?_
  calc 256 ^ (0 + ((bs ++ List.replicate (8 - bs.length) (0 : Byte)).take 8).length)
      ≤ 256 ^ 8 := Nat.pow_le_pow_right (by decide) (by omega)
    _ = 2 ^ 64 := by norm_num

theorem readSignature_content (stream : IInStream) (size : Nat) :
    (readSignature stream size).2.content = stream.content := rfl

theorem seek_content (stream : IInStream) (offset : Nat) :
    (stream.Seek offset).content = stream.content := rfl

theorem offsetLoop_content (table : List OffsetSignature) :
    ∀ stream : IInStream, (offsetLoop table stream).2.content = stream.content := by
  induction table with
  | nil => intro stream; rfl
  | cons sig rest ih =>
    intro stream
    rw [offsetLoop]
    split
    · rfl
    · rw [ih]; rfl

theorem offsetLoop_pos (table : List OffsetSignature) :
    ∀ (stream : IInStream) (format : BitInFormat),
      (offsetLoop table stream).1 = some format → (offsetLoop table stream).2.pos = 0 := by
  induction table with
  | nil => intro stream format h; cases h
  | cons sig rest ih =>
    intro stream format
    rw [offsetLoop]
    split
    · intro _; rfl
    · exact ih _ format

theorem offsetLoop_fst (table : List OffsetSignature) (hsize : ∀ sig ∈ table, sig.size ≤ 8) :
    ∀ stream : IInStream, (offsetLoop table stream).1
      = (table.find? (fun sig => sig.matchesAt stream.content)).map (·.format) := by
  induction table with
  | nil => intro stream; rfl
  | cons sig rest ih =>
    intro stream
    have hs : sig.size ≤ 8 := hsize sig (List.mem_cons_self _ _)
    have hr : (readSignature (stream.Seek sig.offset) sig.size).1
        = paddedSignature (bytesAt stream.content sig.offset sig.size) :=
      readSignature_fst (stream.Seek sig.offset) sig.size hs
    rw [offsetLoop, List.find?_cons]
    by_cases h : paddedSignature (bytesAt stream.content sig.offset sig.size) = sig.signature
    · have hm : sig.matchesAt stream.content = true := by
        simp [OffsetSignature.matchesAt, h]
      rw [if_pos (hr.trans h), hm]
      rfl
    · have hm : sig.matchesAt stream.content = false := by
        simp [OffsetSignature.matchesAt, h]
      rw [if_neg (fun e => h (hr.symm.trans e)), hm]
      rw [ih (fun s hsm => hsize s (List.mem_cons_of_mem _ hsm))]
      rfl

theorem udfLoop_content :
    ∀ (n idx : Nat) (stream : IInStream), (udfLoop n idx stream).2.content = stream.content := by
  intro n
  induction n with
  | zero => intro idx stream; rfl
  | succ n ih =>
    intro idx stream
    rw [udfLoop]
    split
    · rfl
    · rw [ih]; rfl

theorem udfLoop_pos :
    ∀ (n idx : Nat) (stream : IInStream),
      (udfLoop n idx stream).1 = true → (udfLoop n idx stream).2.pos = 0 := by
  intro n
  induction n with
  | zero => intro idx stream h; cases h
  | succ n ih =>
    intro idx stream
    rw [udfLoop]
    split
    · intro _; rfl
    · exact ih _ _

theorem udfLoop_fst :
    ∀ (n idx : Nat) (stream : IInStream), (udfLoop n idx stream).1
      = (List.range n).any (fun i => udfMatchAt stream.content (idx + i)) := by
  intro n
  induction n with
  | zero => intro idx stream; rfl
  | succ n ih =>
    intro idx stream
    have hr := readSignature_fst
      (stream.Seek (ISO_SIGNATURE_OFFSET + idx * ISO_VOLUME_DESCRIPTOR_SIZE))
      UDF_SIGNATURE_SIZE (by decide)
    rw [udfLoop, List.range_succ_eq_map, List.any_cons, List.any_map]
    by_cases h : udfMatchAt stream.content idx = true
    · have h' := h
      simp only [udfMatchAt, decide_eq_true_eq] at h'
      rw [if_pos (hr.trans h'), Nat.add_zero, h]
      rfl
    · have h' := h
      simp only [udfMatchAt, decide_eq_true_eq] at h'
      rw [if_neg (fun e => h' (hr.symm.trans e)), ih]
      simp only [Bool.not_eq_true] at h
      simp only [Nat.add_zero, h, Bool.false_or, readSignature_content, seek_content]
      refine congrArg (fun f => (List.range n).any f) ?_
      funext i
      simp only [Function.comp]
      have : idx + 1 + i = idx + (i + 1) := by omega
      rw [this]

/-! ## The detector described on the content -/

theorem offset_sizes_le : ∀ sig ∈ common_signatures_with_offset, sig.size ≤ 8 := by
  decide

theorem seek_zero_eq (stream : IInStream) : stream.Seek 0 = ⟨stream.content, 0⟩ := rfl

theorem detectFormatFromSig_eq (stream : IInStream) :
    detectFormatFromSig stream
      = (detectOutcome stream.content stream.pos, ⟨stream.content, 0⟩) := by
  unfold detectFormatFromSig detectOutcome
  simp only []
  rw [readSignature_fst stream SIGNATURE_SIZE (by decide),
    signatureLoop_eq _ (paddedSignature_lt _)]
  cases hz : zeroOffsetMatch (paddedSignature (bytesAt stream.content stream.pos SIGNATURE_SIZE)) with
  | some format => rfl
  | none =>
    simp only []
    have h1 := offsetLoop_fst common_signatures_with_offset offset_sizes_le
      (readSignature stream SIGNATURE_SIZE).2
    have h2 := offsetLoop_content common_signatures_with_offset
      (readSignature stream SIGNATURE_SIZE).2
    rw [readSignature_content] at h1 h2
    have hp := offsetLoop_pos common_signatures_with_offset
      (readSignature stream SIGNATURE_SIZE).2
    rcases ho : offsetLoop common_signatures_with_offset (readSignature stream SIGNATURE_SIZE).2
      with ⟨res, stream1⟩
    rw [ho] at h1 h2 hp
    simp only [] at h1 h2 hp
    have h1' : offsetMatch stream.content = res := h1.symm
    rw [h1']
    cases res with
    | some format =>
      have hp0 := hp format rfl
      cases stream1
      simp only [] at h2 hp0
      simp only [h2, hp0]
    | none =>
      simp only []
      have h3 := readSignature_fst (stream1.Seek ISO_SIGNATURE_OFFSET) ISO_SIGNATURE_SIZE
        (by decide)
      rw [seek_content, h2] at h3
      by_cases hiso : isoMatch stream.content = true
      · have hiso' := hiso
        simp only [isoMatch, decide_eq_true_eq] at hiso'
        rw [if_pos (h3.trans hiso'), if_pos hiso]
        have h4 := udfLoop_fst (MAX_VOLUME_DESCRIPTORS - 1) 1
          (readSignature (stream1.Seek ISO_SIGNATURE_OFFSET) ISO_SIGNATURE_SIZE).2
        have h5 := udfLoop_content (MAX_VOLUME_DESCRIPTORS - 1) 1
          (readSignature (stream1.Seek ISO_SIGNATURE_OFFSET) ISO_SIGNATURE_SIZE).2
        rw [readSignature_content, seek_content, h2] at h4 h5
        have h6 := udfLoop_pos (MAX_VOLUME_DESCRIPTORS - 1) 1
          (readSignature (stream1.Seek ISO_SIGNATURE_OFFSET) ISO_SIGNATURE_SIZE).2
        rcases hu : udfLoop (MAX_VOLUME_DESCRIPTORS - 1) 1
          (readSignature (stream1.Seek ISO_SIGNATURE_OFFSET) ISO_SIGNATURE_SIZE).2
          with ⟨found, stream2⟩
        rw [hu] at h4 h5 h6
        simp only [] at h4 h5 h6
        rw [← h4]
        cases found with
        | false => simp [seek_zero_eq, h5]
        | true =>
          have hp0 := h6 rfl
          cases stream2
          simp only [] at h5 hp0
          simp [h5, hp0]
      · have hiso' := hiso
        simp only [isoMatch, decide_eq_true_eq] at hiso'
        rw [if_neg (fun e => hiso' (h3.symm.trans e)), if_neg hiso]
        simp only [seek_zero_eq, readSignature_content, seek_content, h2]

/-! ## When the strategies match -/

theorem common_signatures_keys_nodup : (common_signatures.map Prod.fst).Nodup := by
  decide

theorem common_signatures_find_eq_none_iff (s : Nat) :
    common_signatures_find s = none ↔ s ∉ common_signatures.map Prod.fst := by
  unfold common_signatures_find
  rw [List.lookup_eq_none_iff]
  simp only [List.mem_map, not_exists, not_and, bne_iff_ne, ne_eq]
  constructor
  · intro h e he heq
    exact h e he heq.symm
  · intro h e he heq
    exact h e he heq.symm

theorem common_signatures_find_mem (s : Nat) (format : BitInFormat)
    (h : common_signatures_find s = some format) : (s, format) ∈ common_signatures := by
  unfold common_signatures_find at h
  obtain ⟨l₁, l₂, hl, _⟩ := List.lookup_eq_some_iff.mp h
  rw [hl]
  simp

theorem zeroOffsetMatch_eq_none_iff (s : Nat) :
    zeroOffsetMatch s = none
      ↔ ∀ k, 2 ≤ k → k ≤ 8 → clearLow s k ∉ common_signatures.map Prod.fst := by
  unfold zeroOffsetMatch
  rw [List.findSome?_eq_none_iff]
  constructor
  · intro h k h2 h8
    rw [← common_signatures_find_eq_none_iff]
    apply h
    have : k = 2 ∨ k = 3 ∨ k = 4 ∨ k = 5 ∨ k = 6 ∨ k = 7 ∨ k = 8 := by omega
    rcases this with rfl | rfl | rfl | rfl | rfl | rfl | rfl <;> simp
  · intro h k hk
    rw [common_signatures_find_eq_none_iff]
    simp only [List.mem_cons, List.mem_singleton, List.not_mem_nil, or_false] at hk
    apply h <;> omega

theorem zeroOffsetMatch_mem (s : Nat) (format : BitInFormat)
    (h : zeroOffsetMatch s = some format) : format ∈ common_signatures.map Prod.snd := by
  unfold zeroOffsetMatch at h
  obtain ⟨k, _, hk⟩ := List.exists_of_findSome?_eq_some h
  exact List.mem_map.mpr ⟨_, common_signatures_find_mem _ _ hk, rfl⟩

theorem offsetMatch_eq_none_iff (content : List Byte) :
    offsetMatch content = none
      ↔ ∀ sig ∈ common_signatures_with_offset, sig.matchesAt content = false := by
  unfold offsetMatch
  rw [Option.map_eq_none', List.find?_eq_none]
  simp

theorem offsetMatch_mem (content : List Byte) (format : BitInFormat)
    (h : offsetMatch content = some format) :
    ∃ sig ∈ common_signatures_with_offset, sig.matchesAt content = true ∧ sig.format = format := by
  unfold offsetMatch at h
  rw [Option.map_eq_some'] at h
  obtain ⟨sig, hsig, hf⟩ := h
  have hm := List.find?_some hsig
  exact ⟨sig, List.mem_of_find?_eq_some hsig, hm, hf⟩

theorem paddedSignature_eq_iso (bs : List Byte) (hlen : bs.length ≤ 5) :
    paddedSignature bs = ISO_SIGNATURE ↔ bs = [0x43, 0x44, 0x30, 0x30, 0x31] := by
  constructor
  · intro h
    rcases bs with _ | ⟨b0, _ | ⟨b1, _ | ⟨b2, _ | ⟨b3, _ | ⟨b4, _ | ⟨b5, bs⟩⟩⟩⟩⟩⟩
    all_goals
      simp [paddedSignature, bigEndian, ISO_SIGNATURE, List.replicate] at h hlen
    all_goals try omega
    have h0 := b0.isLt
    have h1 := b1.isLt
    have h2 := b2.isLt
    have h3 := b3.isLt
    have h4 := b4.isLt
    have e0 : b0 = 0x43 := Fin.ext (show b0.val = 0x43 by omega)
    have e1 : b1 = 0x44 := Fin.ext (show b1.val = 0x44 by omega)
    have e2 : b2 = 0x30 := Fin.ext (show b2.val = 0x30 by omega)
    have e3 : b3 = 0x30 := Fin.ext (show b3.val = 0x30 by omega)
    have e4 : b4 = 0x31 := Fin.ext (show b4.val = 0x31 by omega)
    rw [e0, e1, e2, e3, e4]
  · intro h
    rw [h]
    rfl

/-! ## Zero bytes -/

theorem bigEndian_zeros (bs : List Byte) (h : ∀ b ∈ bs, b = 0) : bigEndian bs = 0 := by
  unfold bigEndian
  induction bs with
  | nil => rfl
  | cons b bs ih =>
    have hb : b = 0 := h b (List.mem_cons_self _ _)
    rw [List.foldl_cons, hb]
    exact ih (fun x hx => h x (List.mem_cons_of_mem _ hx))

theorem paddedSignature_zeros (bs : List Byte) (h : ∀ b ∈ bs, b = 0) :
    paddedSignature bs = 0 := by
  unfold paddedSignature
  apply bigEndian_zeros
  intro b hb
  rcases List.mem_append.mp (List.mem_of_mem_take hb) with hb | hb
  · exact h b hb
  · exact (List.mem_replicate.mp hb).2

theorem mem_of_mem_bytesAt {content : List Byte} {offset size : Nat} {b : Byte}
    (h : b ∈ bytesAt content offset size) : b ∈ content :=
  List.mem_of_mem_drop (List.mem_of_mem_take h)

theorem detectOutcome_zeros (content : List Byte) (h : ∀ b ∈ content, b = 0) (pos : Nat) :
    detectOutcome content pos = .error "Cannot detect the format of the file" := by
  have hz : ∀ offset size, paddedSignature (bytesAt content offset size) = 0 :=
    fun offset size => paddedSignature_zeros _ (fun b hb => h b (mem_of_mem_bytesAt hb))
  have h1 : zeroOffsetMatch (paddedSignature (bytesAt content pos SIGNATURE_SIZE)) = none := by
    rw [hz]; decide
  have h2 : offsetMatch content = none := by
    rw [offsetMatch_eq_none_iff]
    intro sig hsig
    have hne : sig.signature ≠ 0 := by
      revert sig; decide
    simp only [OffsetSignature.matchesAt, hz, decide_eq_false_iff_not]
    exact fun e => hne e.symm
  have h3 : isoMatch content = false := by
    simp only [isoMatch, hz]; decide
  unfold detectOutcome
  rw [h1, h2, h3]
  rfl

/-! ## Clearing low bytes keeps a leading part of the bytes -/

theorem bigEndian_foldl_acc (bs : List Byte) :
    ∀ acc : Nat, bs.foldl (fun acc b => acc * 256 + b.val) acc
      = acc * 256 ^ bs.length + bigEndian bs := by
  unfold bigEndian
  induction bs with
  | nil => intro acc; simp
  | cons b bs ih =>
    intro acc
    rw [List.foldl_cons, List.foldl_cons, ih, ih (0 * 256 + b.val), List.length_cons, pow_succ]
    ring

theorem bigEndian_append (l₁ l₂ : List Byte) :
    bigEndian (l₁ ++ l₂) = bigEndian l₁ * 256 ^ l₂.length + bigEndian l₂ := by
  conv_lhs => unfold bigEndian
  rw [List.foldl_append, bigEndian_foldl_acc]
  rfl

theorem bigEndian_lt (bs : List Byte) : bigEndian bs < 256 ^ bs.length := by
  have h := bigEndian_foldl_lt bs 0 0 (by norm_num)
  simpa [bigEndian] using h

theorem padded_take (bs : List Byte) (k : Nat) (hk : k ≤ 8) :
    ((bs.take k) ++ List.replicate (8 - (bs.take k).length) (0 : Byte)).take 8
      = ((bs ++ List.replicate (8 - bs.length) (0 : Byte)).take 8).take k
          ++ List.replicate (8 - k) (0 : Byte) := by
  rw [List.take_take, Nat.min_eq_left hk]
  by_cases h : bs.length ≤ k
  · have hl : (bs ++ List.replicate (8 - bs.length) (0 : Byte)).length ≤ 8 := by
      simp; omega
    have hr : (bs ++ List.replicate (8 - bs.length) (0 : Byte)).take k
        = bs ++ List.replicate (k - bs.length) (0 : Byte) := by
      rw [List.take_append_eq_append_take, List.take_of_length_le h, List.take_replicate]
      congr 2
      omega
    rw [List.take_of_length_le h, List.take_of_length_le hl, hr, List.append_assoc,
      ← List.replicate_add]
    congr 2
    omega
  · have hl : (bs.take k).length = k := by simp; omega
    have hr : (bs ++ List.replicate (8 - bs.length) (0 : Byte)).take k = bs.take k := by
      rw [List.take_append_eq_append_take]
      have e1 : k - bs.length = 0 := by omega
      rw [e1, List.take_zero, List.append_nil]
    rw [hr, hl]
    apply List.take_of_length_le
    simp; omega

theorem clearLow_paddedSignature (bs : List Byte) (k : Nat) (hk : k ≤ 8) :
    clearLow (paddedSignature bs) k = paddedSignature (bs.take k) := by
  have hlen : ((bs ++ List.replicate (8 - bs.length) (0 : Byte)).take 8).length = 8 := by
    simp; omega
  unfold paddedSignature clearLow
  rw [padded_take bs k hk]
  generalize (bs ++ List.replicate (8 - bs.length) (0 : Byte)).take 8 = l at hlen
  have hd : (l.drop k).length = 8 - k := by simp [hlen]
  have hsplit : bigEndian l
      = bigEndian (l.take k) * 256 ^ (8 - k) + bigEndian (l.drop k) := by
    conv_lhs => rw [← List.take_append_drop k l]
    rw [bigEndian_append, hd]
  have hr : bigEndian (l.drop k) < 256 ^ (8 - k) := by
    have := bigEndian_lt (l.drop k)
    rwa [hd] at this
  rw [bigEndian_append, List.length_replicate,
    bigEndian_zeros (List.replicate (8 - k) 0) (fun b hb => (List.mem_replicate.mp hb).2),
    Nat.add_zero, hsplit]
  have hp : 0 < 256 ^ (8 - k) := pow_pos (by decide) _
  rw [Nat.add_comm, Nat.add_mul_div_right _ _ hp, Nat.div_eq_of_lt hr, Nat.zero_add]

/-! ## Lookups in the zero-offset table -/

theorem common_signatures_find_none_of_between (lo hi : Nat)
    (htable : ∀ e ∈ common_signatures, e.1 < lo ∨ hi < e.1) (x : Nat)
    (hlo : lo ≤ x) (hhi : x ≤ hi) : common_signatures_find x = none := by
  rw [common_signatures_find_eq_none_iff, List.mem_map]
  rintro ⟨e, he, rfl⟩
  rcases htable e he with h | h <;> omega

theorem detect_of_zeroOffsetMatch (stream : IInStream) (format : BitInFormat)
    (h : zeroOffsetMatch (paddedSignature (bytesAt stream.content stream.pos SIGNATURE_SIZE))
      = some format) :
    (detectFormatFromSig stream).1 = .ok format := by
  rw [detectFormatFromSig_eq]
  simp only []
  unfold detectOutcome
  rw [h]

theorem common_signatures_find_of_mem (s : Nat) (format : BitInFormat)
    (h : (s, format) ∈ common_signatures) : common_signatures_find s = some format := by
  have hall : ∀ e ∈ common_signatures, common_signatures_find e.1 = some e.2 := by decide
  exact hall (s, format) h

theorem zeroOffsetMatch_of_largest (s k : Nat) (format : BitInFormat)
    (hk2 : 2 ≤ k) (hk8 : k ≤ 8)
    (hkey : common_signatures_find (clearLow s k) = some format)
    (hlargest : ∀ k', k < k' → k' ≤ 8 → common_signatures_find (clearLow s k') = none) :
    zeroOffsetMatch s = some format := by
  have hk : k = 2 ∨ k = 3 ∨ k = 4 ∨ k = 5 ∨ k = 6 ∨ k = 7 ∨ k = 8 := by omega
  unfold zeroOffsetMatch
  rcases hk with rfl | rfl | rfl | rfl | rfl | rfl | rfl
  · simp only [List.findSome?, hlargest 8 (by decide) (by decide),
      hlargest 7 (by decide) (by decide), hlargest 6 (by decide) (by decide),
      hlargest 5 (by decide) (by decide), hlargest 4 (by decide) (by decide),
      hlargest 3 (by decide) (by decide), hkey]
  · simp only [List.findSome?, hlargest 8 (by decide) (by decide),
      hlargest 7 (by decide) (by decide), hlargest 6 (by decide) (by decide),
      hlargest 5 (by decide) (by decide), hlargest 4 (by decide) (by decide), hkey]
  · simp only [List.findSome?, hlargest 8 (by decide) (by decide),
      hlargest 7 (by decide) (by decide), hlargest 6 (by decide) (by decide),
      hlargest 5 (by decide) (by decide), hkey]
  · simp only [List.findSome?, hlargest 8 (by decide) (by decide),
      hlargest 7 (by decide) (by decide), hlargest 6 (by decide) (by decide), hkey]
  · simp only [List.findSome?, hlargest 8 (by decide) (by decide),
      hlargest 7 (by decide) (by decide), hkey]
  · simp only [List.findSome?, hlargest 8 (by decide) (by decide), hkey]
  · simp only [List.findSome?, hkey]

theorem bytesAt_zero_take (pre rest : List Byte) (size n : Nat) (hn : pre.length = n)
    (h : n ≤ size) : (bytesAt (pre ++ rest) 0 size).take n = pre := by
  subst hn
  simp only [bytesAt, List.drop_zero, List.take_take, Nat.min_eq_left h]
  simp

/-! ## Zero bytes after and before the data -/

theorem paddedSignature_append_zeros (bs : List Byte) (j : Nat) (h : bs.length + j ≤ 8) :
    paddedSignature (bs ++ List.replicate j (0 : Byte)) = paddedSignature bs := by
  unfold paddedSignature
  rw [List.append_assoc, ← List.replicate_add, List.length_append, List.length_replicate]
  have e : j + (8 - (bs.length + j)) = 8 - bs.length := by omega
  rw [e]

theorem bytesAt_append_zeros (pre : List Byte) (m offset size : Nat) :
    ∃ j, bytesAt (pre ++ List.replicate m (0 : Byte)) offset size
        = bytesAt pre offset size ++ List.replicate j (0 : Byte)
      ∧ (bytesAt pre offset size).length + j ≤ size := by
  refine ⟨min (size - (pre.drop offset).length) (m - (offset - pre.length)), ?_, ?_⟩
  · simp only [bytesAt, List.drop_append_eq_append_drop, List.take_append_eq_append_take,
      List.drop_replicate, List.take_replicate]
  · simp only [bytesAt, List.length_take, List.length_drop]
    omega

theorem paddedSignature_bytesAt_append_zeros (pre : List Byte) (m offset size : Nat)
    (hsize : size ≤ 8) :
    paddedSignature (bytesAt (pre ++ List.replicate m (0 : Byte)) offset size)
      = paddedSignature (bytesAt pre offset size) := by
  obtain ⟨j, hj, hlen⟩ := bytesAt_append_zeros pre m offset size
  rw [hj, paddedSignature_append_zeros _ _ (by omega)]

theorem find?_congr_mem {α : Type} (p q : α → Bool) (l : List α)
    (h : ∀ a ∈ l, p a = q a) : l.find? p = l.find? q := by
  induction l with
  | nil => rfl
  | cons a l ih =>
    rw [List.find?_cons, List.find?_cons, h a (List.mem_cons_self _ _),
      ih (fun b hb => h b (List.mem_cons_of_mem _ hb))]

theorem detectOutcome_append_zeros (pre : List Byte) (m pos : Nat) :
    detectOutcome (pre ++ List.replicate m (0 : Byte)) pos = detectOutcome pre pos := by
  have hoff : offsetMatch (pre ++ List.replicate m (0 : Byte)) = offsetMatch pre := by
    unfold offsetMatch
    rw [find?_congr_mem _ (fun sig => sig.matchesAt pre)]
    intro sig hsig
    simp only [OffsetSignature.matchesAt]
    rw [paddedSignature_bytesAt_append_zeros _ _ _ _ (offset_sizes_le sig hsig)]
  have hiso : isoMatch (pre ++ List.replicate m (0 : Byte)) = isoMatch pre := by
    unfold isoMatch
    rw [paddedSignature_bytesAt_append_zeros _ _ _ _ (by decide)]
  have hudf : ∀ k, udfMatchAt (pre ++ List.replicate m (0 : Byte)) k = udfMatchAt pre k := by
    intro k
    unfold udfMatchAt
    rw [paddedSignature_bytesAt_append_zeros _ _ _ _ (by decide)]
  unfold detectOutcome
  rw [paddedSignature_bytesAt_append_zeros _ _ _ _ (by decide), hoff, hiso]
  simp only [hudf]

/-! ## The offset table and the ISO/UDF probe -/

theorem offsetMatch_gpt (content : List Byte)
    (hgpt : (⟨0x4546492050415254, 0x200, 8, GPT⟩ : OffsetSignature).matchesAt content = true) :
    (offsetMatch content = some Lzh ∨ offsetMatch content = some Ntfs
      ∨ offsetMatch content = some Nsis ∨ offsetMatch content = some CramFS
      ∨ offsetMatch content = some VDI ∨ offsetMatch content = some Tar.toBitInFormat
      ∨ offsetMatch content = some GPT)
    ∧ ((∀ sig ∈ common_signatures_with_offset.take 6, sig.matchesAt content = false)
        → offsetMatch content = some GPT) := by
  unfold offsetMatch common_signatures_with_offset
  simp only [List.find?_cons, hgpt, List.take, List.mem_cons, List.mem_singleton,
    List.not_mem_nil, or_false, forall_eq_or_imp, forall_eq]
  constructor
  · repeat' split
    all_goals simp
  · rintro ⟨h1, h2, h3, h4, h5, h6⟩
    simp only [h1, h2, h3, h4, h5, h6]
    rfl

theorem detectOutcome_offset_some (content : List Byte) (pos : Nat) (format : BitInFormat)
    (hz : zeroOffsetMatch (paddedSignature (bytesAt content pos 8)) = none)
    (ho : offsetMatch content = some format) :
    detectOutcome content pos = .ok format := by
  unfold detectOutcome
  simp only [SIGNATURE_SIZE, hz, ho]

theorem detectOutcome_probe (content : List Byte) (pos : Nat)
    (hz : zeroOffsetMatch (paddedSignature (bytesAt content pos 8)) = none)
    (ho : offsetMatch content = none) (hiso : isoMatch content = true) :
    detectOutcome content pos
      = if (List.range 15).any (fun i => udfMatchAt content (1 + i)) then .ok Udf
        else .ok Iso := by
  unfold detectOutcome
  simp only [SIGNATURE_SIZE, MAX_VOLUME_DESCRIPTORS, hz, ho, hiso, if_true]

theorem bytesAt_zeros_append_hi (a : Nat) (l : List Byte) (offset size : Nat)
    (h : a ≤ offset) :
    bytesAt (List.replicate a (0 : Byte) ++ l) offset size = bytesAt l (offset - a) size := by
  unfold bytesAt
  rw [List.drop_append_eq_append_drop, List.drop_replicate, List.length_replicate]
  have e : a - offset = 0 := by omega
  rw [e]
  rfl

theorem paddedSignature_zeros_append_lo (a : Nat) (l : List Byte) (offset size : Nat)
    (h : offset + size ≤ a) :
    paddedSignature (bytesAt (List.replicate a (0 : Byte) ++ l) offset size) = 0 := by
  apply paddedSignature_zeros
  intro b hb
  unfold bytesAt at hb
  rw [List.drop_append_eq_append_drop, List.drop_replicate, List.take_append_eq_append_take,
    List.take_replicate, List.length_replicate] at hb
  have e : size - (a - offset) = 0 := by omega
  rw [e, List.take_zero, List.append_nil] at hb
  exact (List.mem_replicate.mp hb).2

theorem matchesAt_zeros_append_lo (a : Nat) (l : List Byte) (sig : OffsetSignature)
    (h : sig.offset + sig.size ≤ a) (hne : sig.signature ≠ 0) :
    sig.matchesAt (List.replicate a (0 : Byte) ++ l) = false := by
  simp only [OffsetSignature.matchesAt, paddedSignature_zeros_append_lo a l _ _ h,
    decide_eq_false_iff_not]
  exact fun e => hne e.symm

theorem zeroOffset_zeros_append_lo (a : Nat) (l : List Byte) (h : 8 ≤ a) :
    ∀ k, 2 ≤ k → k ≤ 8 →
      clearLow (paddedSignature (bytesAt (List.replicate a (0 : Byte) ++ l) 0 8)) k
        ∉ common_signatures.map Prod.fst := by
  intro k _ _
  rw [paddedSignature_zeros_append_lo a l 0 8 (by omega)]
  have : clearLow 0 k = 0 := by simp [clearLow]
  rw [this]
  decide

theorem paddedSignature_eq_udf (bs : List Byte) (hlen : bs.length ≤ 4) :
    paddedSignature bs = UDF_SIGNATURE ↔ bs = [0x4E, 0x53, 0x52, 0x30] := by
  constructor
  · intro h
    rcases bs with _ | ⟨b0, _ | ⟨b1, _ | ⟨b2, _ | ⟨b3, _ | ⟨b4, bs⟩⟩⟩⟩⟩
    all_goals
      simp [paddedSignature, bigEndian, UDF_SIGNATURE, List.replicate] at h hlen
    all_goals try omega
    have h0 := b0.isLt
    have h1 := b1.isLt
    have h2 := b2.isLt
    have h3 := b3.isLt
    have e0 : b0 = 0x4E := Fin.ext (show b0.val = 0x4E by omega)
    have e1 : b1 = 0x53 := Fin.ext (show b1.val = 0x53 by omega)
    have e2 : b2 = 0x52 := Fin.ext (show b2.val = 0x52 by omega)
    have e3 : b3 = 0x30 := Fin.ext (show b3.val = 0x30 by omega)
    rw [e0, e1, e2, e3]
  · intro h
    rw [h]
    rfl

theorem isoMatch_iff (content : List Byte) :
    isoMatch content = true ↔ bytesAt content 0x8001 5 = [0x43, 0x44, 0x30, 0x30, 0x31] := by
  simp only [isoMatch, decide_eq_true_eq]
  exact paddedSignature_eq_iso _ (bytesAt_length_le _ _ _)

theorem udfMatchAt_iff (content : List Byte) (k : Nat) :
    udfMatchAt content k = true
      ↔ bytesAt content (0x8001 + k * 2048) 4 = [0x4E, 0x53, 0x52, 0x30] := by
  simp only [udfMatchAt, decide_eq_true_eq]
  exact paddedSignature_eq_udf _ (bytesAt_length_le _ _ _)

theorem bytesAt_append_hi (pre l : List Byte) (offset size : Nat) (h : pre.length ≤ offset) :
    bytesAt (pre ++ l) offset size = bytesAt l (offset - pre.length) size := by
  unfold bytesAt
  rw [List.drop_append_eq_append_drop, List.drop_of_length_le h, List.nil_append]

theorem bytesAt_eq_nil (l : List Byte) (offset size : Nat) (h : l.length ≤ offset) :
    bytesAt l offset size = [] := by
  unfold bytesAt
  rw [List.drop_of_length_le h, List.take_nil]

theorem offsetMatch_zeros_append (a : Nat) (l : List Byte) (h : 0x43A ≤ a) :
    ∀ sig ∈ common_signatures_with_offset,
      sig.matchesAt (List.replicate a (0 : Byte) ++ l) = false := by
  intro sig hsig
  have hs : sig.offset + sig.size ≤ 0x43A ∧ sig.signature ≠ 0 := by
    revert sig; decide
  exact matchesAt_zeros_append_lo _ _ sig (le_trans hs.1 h) hs.2

theorem udfAtSlot_iso (k : Nat) :
    bytesAt (udfAtSlot k) 0x8001 5 = [0x43, 0x44, 0x30, 0x30, 0x31] := by
  unfold udfAtSlot
  rw [bytesAt_zeros_append_hi _ _ _ _ (by decide)]
  rfl

theorem udfAtSlot_self (k : Nat) (hk : 1 ≤ k) :
    bytesAt (udfAtSlot k) (0x8001 + k * 2048) 4 = [0x4E, 0x53, 0x52, 0x30] := by
  unfold udfAtSlot
  rw [bytesAt_zeros_append_hi _ _ _ _ (by omega),
    bytesAt_append_hi _ _ _ _ (by simp; omega),
    bytesAt_zeros_append_hi _ _ _ _ (by simp)]
  have e : 0x8001 + k * 2048 - 0x8001 - [(0x43 : Byte), 0x44, 0x30, 0x30, 0x31].length
      - (k * 0x800 - 5) = 0 := by
    simp
  rw [e]
  rfl

theorem udfAtSlot_before (k j : Nat) (hj : 1 ≤ j) (hjk : j < k) :
    udfMatchAt (udfAtSlot k) j = false := by
  unfold udfMatchAt udfAtSlot
  rw [bytesAt_zeros_append_hi _ _ _ _ (by simp [ISO_SIGNATURE_OFFSET]),
    bytesAt_append_hi _ _ _ _
      (by simp [ISO_SIGNATURE_OFFSET, ISO_VOLUME_DESCRIPTOR_SIZE]; omega),
    paddedSignature_zeros_append_lo _ _ _ _
      (by simp [ISO_SIGNATURE_OFFSET, ISO_VOLUME_DESCRIPTOR_SIZE, UDF_SIGNATURE_SIZE]; omega)]
  decide

/-! ## Feature flags -/

theorem toMask_eq_two_pow (f : FormatFeatures) : f.toMask = 2 ^ f.toCtorIdx := by
  cases f <;> rfl

theorem toCtorIdx_injective (f g : FormatFeatures) (h : f.toCtorIdx = g.toCtorIdx) :
    f = g := by
  cases f <;> cases g <;> first | rfl | cases h

theorem and_two_pow_ne_zero (x i : Nat) : x &&& 2 ^ i ≠ 0 ↔ x.testBit i = true := by
  constructor
  · intro h
    obtain ⟨j, hj⟩ := Nat.ne_zero_implies_bit_true h
    rw [Nat.testBit_and, Nat.testBit_two_pow, Bool.and_eq_true, decide_eq_true_eq] at hj
    rw [hj.2]
    exact hj.1
  · intro h h0
    have : (x &&& 2 ^ i).testBit i = true := by
      rw [Nat.testBit_and, Nat.testBit_two_pow, h]
      simp
    rw [h0, Nat.zero_testBit] at this
    cases this

theorem hasFeature_iff_testBit (format : BitInOutFormat) (f : FormatFeatures) :
    format.hasFeature f = true ↔ format.mFeatures.testBit f.toCtorIdx = true := by
  unfold BitInOutFormat.hasFeature
  rw [toMask_eq_two_pow, bne_iff_ne]
  exact and_two_pow_ne_zero _ _

theorem testBit_foldl_features (flags : List FormatFeatures) (f : FormatFeatures) :
    ∀ set : FeaturesSet,
      (flags.foldl (fun set flag => set ||| flag.toMask) set).testBit f.toCtorIdx = true
        ↔ set.testBit f.toCtorIdx = true ∨ f ∈ flags := by
  induction flags with
  | nil => intro set; simp
  | cons g flags ih =>
    intro set
    rw [List.foldl_cons, ih, Nat.testBit_or, toMask_eq_two_pow, Nat.testBit_two_pow,
      Bool.or_eq_true, decide_eq_true_eq, List.mem_cons]
    constructor
    · rintro ((h | h) | h)
      · exact Or.inl h
      · exact Or.inr (Or.inl (toCtorIdx_injective _ _ h).symm)
      · exact Or.inr (Or.inr h)
    · rintro (h | h | h)
      · exact Or.inl (Or.inl h)
      · exact Or.inl (Or.inr (by rw [h]))
      · exact Or.inr h

/-! ## Extension detection -/

theorem common_extensions_facts :
    ∀ e ∈ common_extensions,
      e.1.map towlower = e.1 ∧ e.1 ≠ [] ∧ common_extensions.lookup e.1 = some e.2
        ∧ e.2 ≠ Auto ∧ isSplitVolumeSuffix e.1 = false := by
  decide

theorem split_volume_condition (ext : wstring) :
    ((wstringAt ext 0 == 'r' || wstringAt ext 0 == 'z') &&
      (ext.length == 3 && iswdigit (wstringAt ext 1) && iswdigit (wstringAt ext 2)))
      = isSplitVolumeSuffix ext := by
  rcases ext with _ | ⟨a, _ | ⟨b, _ | ⟨c, _ | ⟨d, rest⟩⟩⟩⟩
  · simp [isSplitVolumeSuffix]
  · simp [isSplitVolumeSuffix]
  · simp [isSplitVolumeSuffix]
  · simp [isSplitVolumeSuffix, wstringAt, iswdigit, Bool.and_assoc]
  · simp [isSplitVolumeSuffix]

theorem detectFormatFromExt_eq (in_file : wstring) :
    detectFormatFromExt in_file
      = if filesystem.fsutil.extension in_file = [] then
          .error "Cannot detect the archive format from the extension"
        else
          match common_extensions.lookup ((filesystem.fsutil.extension in_file).map towlower) with
          | some format => .ok format
          | none =>
            if isSplitVolumeSuffix ((filesystem.fsutil.extension in_file).map towlower) then
              .ok (if wstringAt ((filesystem.fsutil.extension in_file).map towlower) 0 == 'r'
                then Rar else Zip.toBitInFormat)
            else .ok Auto := by
  unfold detectFormatFromExt
  simp only [split_volume_condition, List.isEmpty_iff]

theorem common_extensions_lookup_mem (ext : wstring) (format : BitInFormat)
    (h : common_extensions.lookup ext = some format) : (ext, format) ∈ common_extensions := by
  obtain ⟨l₁, l₂, hl, _⟩ := List.lookup_eq_some_iff.mp h
  rw [hl]
  simp

theorem common_extensions_lookup_eq_none_iff (ext : wstring) :
    common_extensions.lookup ext = none ↔ ext ∉ common_extensions.map Prod.fst := by
  rw [List.lookup_eq_none_iff]
  simp only [List.mem_map, not_exists, not_and, bne_iff_ne, ne_eq]
  constructor
  · intro h e he heq
    exact h e he heq.symm
  · intro h e he heq
    exact h e he heq.symm

theorem lookup_none_of_split_volume (ext : wstring) (h : isSplitVolumeSuffix ext = true) :
    common_extensions.lookup ext = none := by
  rw [common_extensions_lookup_eq_none_iff, List.mem_map]
  rintro ⟨e, he, rfl⟩
  have := (common_extensions_facts e he).2.2.2.2
  rw [h] at this
  cases this

/-! ## The bytes of a signature value -/

theorem bigEndian_snoc (l : List Byte) (b : Byte) :
    bigEndian (l ++ [b]) = bigEndian l * 256 + b.val := by
  rw [bigEndian_append]
  simp [bigEndian]

theorem bigEndian_digit (l : List Byte) :
    ∀ i, i < l.length →
      bigEndian l / 256 ^ (l.length - 1 - i) % 256 = (l.getD i 0).val := by
  induction l using List.reverseRecOn with
  | nil => intro i hi; simp at hi
  | append_singleton l b ih =>
    intro i hi
    rw [List.length_append, List.length_singleton] at hi ⊢
    rw [bigEndian_snoc]
    have hb := b.isLt
    by_cases h : i < l.length
    · have e : l.length + 1 - 1 - i = (l.length - 1 - i) + 1 := by omega
      rw [e, pow_succ, Nat.mul_comm (256 ^ (l.length - 1 - i)) 256,
        ← Nat.div_div_eq_div_mul]
      have hdiv : (bigEndian l * 256 + b.val) / 256 = bigEndian l := by omega
      rw [hdiv, ih i h, List.getD_append _ _ _ _ h]
    · have e : i = l.length := by omega
      subst e
      have e0 : l.length + 1 - 1 - l.length = 0 := by omega
      rw [e0, pow_zero, Nat.div_one, List.getD_append_right _ _ _ _ (le_refl _)]
      simp
      omega

theorem padded_getD (bs : List Byte) (i : Nat) (hi : i < 8) :
    ((bs ++ List.replicate (8 - bs.length) (0 : Byte)).take 8).getD i 0 = bs.getD i 0 := by
  rw [List.getD_eq_getElem?_getD, List.getD_eq_getElem?_getD, List.getElem?_take_of_lt hi]
  by_cases h : i < bs.length
  · rw [List.getElem?_append_left h]
  · rw [List.getElem?_append_right (by omega), List.getElem?_eq_none (by omega : bs.length ≤ i),
      List.getElem?_replicate]
    split <;> rfl

theorem paddedSignature_digit (bs : List Byte) (i : Nat) (hi : i < 8) :
    paddedSignature bs / 256 ^ (7 - i) % 256 = (bs.getD i 0).val := by
  have hlen : ((bs ++ List.replicate (8 - bs.length) (0 : Byte)).take 8).length = 8 := by
    simp; omega
  have h := bigEndian_digit ((bs ++ List.replicate (8 - bs.length) (0 : Byte)).take 8) i
    (by rw [hlen]; exact hi)
  rw [hlen, padded_getD bs i hi] at h
  exact h

theorem paddedSignature_eq_shift (bs : List Byte) (hlen : bs.length ≤ 8) :
    paddedSignature bs = bigEndian bs * 256 ^ (8 - bs.length) := by
  unfold paddedSignature
  rw [List.take_of_length_le (by simp; omega), bigEndian_append, List.length_replicate,
    bigEndian_zeros (List.replicate (8 - bs.length) 0) (fun b hb => (List.mem_replicate.mp hb).2),
    Nat.add_zero]

theorem bytesAt_length (content : List Byte) (offset size : Nat) :
    (bytesAt content offset size).length = min size (content.length - offset) := by
  simp [bytesAt]

/-! ## Exact comparison of the offset entries -/

theorem offset_table_facts :
    ∀ sig ∈ common_signatures_with_offset,
      sig.leadingBytes.length = sig.size ∧ 1 ≤ sig.size ∧ sig.size ≤ 8
        ∧ paddedSignature sig.leadingBytes = sig.signature
        ∧ sig.leadingBytes.getD (sig.size - 1) 0 ≠ 0 := by
  decide

theorem eq_of_getD_eq (l₁ l₂ : List Byte) (hlen : l₁.length = l₂.length)
    (h : ∀ i, i < l₁.length → l₁.getD i 0 = l₂.getD i 0) : l₁ = l₂ := by
  apply List.ext_getElem hlen
  intro i h₁ h₂
  have := h i h₁
  rw [List.getD_eq_getElem?_getD, List.getD_eq_getElem?_getD,
    List.getElem?_eq_getElem h₁, List.getElem?_eq_getElem h₂] at this
  exact this

theorem getD_eq_of_paddedSignature_eq (l₁ l₂ : List Byte)
    (h : paddedSignature l₁ = paddedSignature l₂) (i : Nat) (hi : i < 8) :
    l₁.getD i 0 = l₂.getD i 0 := by
  apply Fin.ext
  rw [← paddedSignature_digit l₁ i hi, ← paddedSignature_digit l₂ i hi, h]

theorem matchesAt_iff_exactAt (sig : OffsetSignature)
    (hsig : sig ∈ common_signatures_with_offset) (content : List Byte) :
    sig.matchesAt content = sig.exactAt content := by
  obtain ⟨hlen, h1, h8, hval, hlast⟩ := offset_table_facts sig hsig
  have hb := bytesAt_length_le content sig.offset sig.size
  simp only [OffsetSignature.matchesAt, OffsetSignature.exactAt, decide_eq_decide]
  constructor
  · intro h
    rw [← hval] at h
    have hd := getD_eq_of_paddedSignature_eq _ _ h
    have hfull : (bytesAt content sig.offset sig.size).length = sig.size := by
      by_contra hne
      have hshort : (bytesAt content sig.offset sig.size).length ≤ sig.size - 1 := by omega
      have h0 := hd (sig.size - 1) (by omega)
      rw [List.getD_eq_default _ _ hshort] at h0
      exact hlast h0.symm
    exact eq_of_getD_eq _ _ (by rw [hfull, hlen]) (fun i hi => hd i (by omega))
  · intro h
    rw [h, hval]

theorem bytesAt_zeros_append_lo (a : Nat) (l : List Byte) (offset size : Nat)
    (h : offset + size ≤ a) :
    bytesAt (List.replicate a (0 : Byte) ++ l) offset size = List.replicate size 0 := by
  unfold bytesAt
  rw [List.drop_append_eq_append_drop, List.drop_replicate, List.take_append_eq_append_take,
    List.take_replicate, List.length_replicate]
  have e : size - (a - offset) = 0 := by omega
  have e' : min size (a - offset) = size := by omega
  rw [e, e', List.take_zero, List.append_nil]

/-! ## Lzma and its one-byte signature -/

theorem lzma_only_key :
    (∀ e ∈ common_signatures, e.2 = Lzma → e.1 = 0x5D00000000000000)
    ∧ (∀ sig ∈ common_signatures_with_offset, sig.format ≠ Lzma) := by
  decide

theorem zeroOffsetMatch_of_detect_lzma (stream : IInStream)
    (h : (detectFormatFromSig stream).1 = .ok Lzma) :
    zeroOffsetMatch (paddedSignature (bytesAt stream.content stream.pos 8)) = some Lzma := by
  rw [detectFormatFromSig_eq] at h
  simp only [] at h
  unfold detectOutcome at h
  simp only [SIGNATURE_SIZE] at h
  cases hz : zeroOffsetMatch (paddedSignature (bytesAt stream.content stream.pos 8)) with
  | some format =>
    rw [hz] at h
    injection h with h
    rw [h]
  | none =>
    exfalso
    rw [hz] at h
    simp only [] at h
    cases ho : offsetMatch stream.content with
    | some format =>
      rw [ho] at h
      injection h with h
      obtain ⟨sig, hsig, _, hf⟩ := offsetMatch_mem _ _ ho
      exact lzma_only_key.2 sig hsig (hf.trans h)
    | none =>
      rw [ho] at h
      simp only [] at h
      revert h
      split
      · split <;> decide
      · intro h; cases h

theorem leading_bytes_of_lzma (bs : List Byte)
    (h : zeroOffsetMatch (paddedSignature bs) = some Lzma) :
    bs.getD 0 0 = 0x5D ∧ bs.getD 1 0 = 0x00 := by
  unfold zeroOffsetMatch at h
  obtain ⟨k, hk, hfind⟩ := List.exists_of_findSome?_eq_some h
  have hkey := lzma_only_key.1 _ (common_signatures_find_mem _ _ hfind) rfl
  simp only [] at hkey
  have hk2 : 2 ≤ k ∧ k ≤ 8 := by
    simp only [List.mem_cons, List.mem_singleton, List.not_mem_nil, or_false] at hk
    omega
  rw [clearLow_paddedSignature bs k hk2.2] at hkey
  have h0 := paddedSignature_digit (bs.take k) 0 (by decide)
  have h1 := paddedSignature_digit (bs.take k) 1 (by decide)
  rw [hkey] at h0 h1
  have t0 : (bs.take k).getD 0 0 = bs.getD 0 0 := by
    rw [List.getD_eq_getElem?_getD, List.getD_eq_getElem?_getD,
      List.getElem?_take_of_lt (by omega)]
  have t1 : (bs.take k).getD 1 0 = bs.getD 1 0 := by
    rw [List.getD_eq_getElem?_getD, List.getD_eq_getElem?_getD,
      List.getElem?_take_of_lt (by omega)]
  rw [t0] at h0
  rw [t1] at h1
  exact ⟨Fin.ext h0.symm, Fin.ext h1.symm⟩

/-! # Properties of the detector and of the registry -/

/-! ## The position after detection -/

/-- C1: whatever the content, the length and the initial position of the stream, the
stream position is 0 when `detectFormatFromSig` finishes, whichever path it takes
(a zero-offset hit, an offset-signature hit, Udf, Iso, or the detection error). -/
theorem detectFormatFromSig_position_zero (stream : IInStream) :
    (detectFormatFromSig stream).2.pos = 0 := by
  rw [detectFormatFromSig_eq]

/-! ## Failure of detection -/

/-- C2: for a stream positioned at its start, `detectFormatFromSig` fails, and then with
the error "Cannot detect the format of the file", exactly when no prefix of 8 down to 2
bytes of the first eight bytes is a key of the zero-offset table, no offset-signature
entry matches and the five bytes at `0x8001` are not `CD001`; a descriptor it returns is
never `Auto` (code 0); an empty stream and an all-zero stream fail. -/
theorem detectFormatFromSig_error_iff (stream : IInStream) (hpos : stream.pos = 0) :
    ((detectFormatFromSig stream).1 = .error "Cannot detect the format of the file"
      ↔ ((∀ k, 2 ≤ k → k ≤ 8 →
            clearLow (paddedSignature (bytesAt stream.content 0 8)) k
              ∉ common_signatures.map Prod.fst)
          ∧ (∀ sig ∈ common_signatures_with_offset, sig.matchesAt stream.content = false)
          ∧ bytesAt stream.content 0x8001 5 ≠ [0x43, 0x44, 0x30, 0x30, 0x31]))
    ∧ (∀ e, (detectFormatFromSig stream).1 = .error e
        → e = "Cannot detect the format of the file")
    ∧ (∀ format, (detectFormatFromSig stream).1 = .ok format
        → format ≠ Auto ∧ format.value ≠ 0)
    ∧ (stream.content = []
        → (detectFormatFromSig stream).1 = .error "Cannot detect the format of the file")
    ∧ ((∀ b ∈ stream.content, b = 0)
        → (detectFormatFromSig stream).1 = .error "Cannot detect the format of the file") := by
  have hiso : isoMatch stream.content = true
      ↔ bytesAt stream.content 0x8001 5 = [0x43, 0x44, 0x30, 0x30, 0x31] := by
    simp only [isoMatch, decide_eq_true_eq]
    exact paddedSignature_eq_iso _ (bytesAt_length_le _ _ _)
  have hval : ∀ format : BitInFormat, format ≠ Auto → format.value ≠ 0 := by
    intro format hne hv
    apply hne
    cases format with
    | mk v =>
      simp only [BitInFormat.value, Int.natCast_eq_zero] at hv
      simp only [Auto, BitInFormat.mk.injEq]
      exact Fin.ext hv
  rw [detectFormatFromSig_eq, hpos]
  simp only []
  refine ⟨?_, ?_, ?_, ?_, ?_⟩
  · rw [← zeroOffsetMatch_eq_none_iff, ← offsetMatch_eq_none_iff, ne_eq, ← hiso]
    unfold detectOutcome
    simp only [SIGNATURE_SIZE]
    cases zeroOffsetMatch (paddedSignature (bytesAt stream.content 0 8)) with
    | some f => simp
    | none =>
      cases offsetMatch stream.content with
      | some f => simp
      | none =>
        cases isoMatch stream.content with
        | true =>
          simp only [if_true, and_true, reduceCtorEq, not_true_eq_false, and_false, iff_false]
          split <;> simp
        | false => simp
  · intro e
    unfold detectOutcome
    split
    · simp
    · split
      · simp
      · split
        · split <;> simp
        · intro h; injection h with h; exact h.symm
  · intro format
    unfold detectOutcome
    have hsnd : ∀ f ∈ common_signatures.map Prod.snd, f ≠ Auto := by decide
    have hoff : ∀ sig ∈ common_signatures_with_offset, sig.format ≠ Auto := by decide
    split
    · rename_i f hf
      intro h; injection h with h; subst h
      have := hsnd _ (zeroOffsetMatch_mem _ _ hf)
      exact ⟨this, hval _ this⟩
    · split
      · rename_i f hf
        intro h; injection h with h; subst h
        obtain ⟨sig, hsig, _, rfl⟩ := offsetMatch_mem _ _ hf
        exact ⟨hoff _ hsig, hval _ (hoff _ hsig)⟩
      · split
        · split
          · intro h; injection h with h; subst h
            exact ⟨by decide, by decide⟩
          · intro h; injection h with h; subst h
            exact ⟨by decide, by decide⟩
        · intro h; cases h
  · intro hnil
    apply detectOutcome_zeros
    rw [hnil]; simp
  · intro hzero
    exact detectOutcome_zeros _ hzero 0

/-- Witness for C2: the three-byte all-zero stream, positioned at its start, fails with
the detection error. -/
theorem detectFormatFromSig_error_iff_witness :
    (⟨[0, 0, 0], 0⟩ : IInStream).pos = 0
      ∧ (detectFormatFromSig ⟨[0, 0, 0], 0⟩).1
          = .error "Cannot detect the format of the file" :=
  ⟨rfl, (detectFormatFromSig_error_iff ⟨[0, 0, 0], 0⟩ rfl).2.2.2.2
    (fun b hb => by simpa using hb)⟩

/-! ## Zip -/

/-- C3: for every stream positioned at its start whose content begins with the four
bytes `50 4B 03 04`, whatever follows (including nothing), `detectFormatFromSig` returns
the Zip descriptor, whose code is `0x01`. -/
theorem detectFormatFromSig_zip (stream : IInStream) (rest : List Byte)
    (hpos : stream.pos = 0)
    (hcontent : stream.content = 0x50 :: 0x4B :: 0x03 :: 0x04 :: rest) :
    (detectFormatFromSig stream).1 = .ok Zip.toBitInFormat
      ∧ Zip.toBitInFormat.value = 0x01 := by
  refine ⟨?_, by decide⟩
  apply detect_of_zeroOffsetMatch
  rw [hpos]
  have h4 : clearLow (paddedSignature (bytesAt stream.content 0 SIGNATURE_SIZE)) 4
      = 0x504B030400000000 := by
    rw [clearLow_paddedSignature _ 4 (by decide)]
    have : (bytesAt stream.content 0 SIGNATURE_SIZE).take 4 = [0x50, 0x4B, 0x03, 0x04] := by
      simp [bytesAt, hcontent, SIGNATURE_SIZE, List.take_take]
    rw [this]
    rfl
  have hv := paddedSignature_lt (bytesAt stream.content 0 SIGNATURE_SIZE)
  generalize paddedSignature (bytesAt stream.content 0 SIGNATURE_SIZE) = v at h4 hv
  have htable : ∀ e ∈ common_signatures,
      e.1 < 0x504B030000000000 ∨ 0x504B0304FFFFFFFF < e.1 := by decide
  have hnone : ∀ k, 3 ≤ k → k ≤ 8 → common_signatures_find (clearLow v k) = none := by
    intro k h3 h8
    have hk : k = 3 ∨ k = 4 ∨ k = 5 ∨ k = 6 ∨ k = 7 ∨ k = 8 := by omega
    apply common_signatures_find_none_of_between _ _ htable
    · rcases hk with rfl | rfl | rfl | rfl | rfl | rfl <;>
        (simp only [clearLow] at h4 ⊢; norm_num at h4 ⊢; omega)
    · rcases hk with rfl | rfl | rfl | rfl | rfl | rfl <;>
        (simp only [clearLow] at h4 ⊢; norm_num at h4 ⊢; omega)
  have h2 : clearLow v 2 = 0x504B000000000000 := by
    simp only [clearLow] at h4 ⊢
    norm_num at h4 ⊢
    omega
  unfold zeroOffsetMatch
  simp only [List.findSome?, hnone 8 (by decide) (by decide),
    hnone 7 (by decide) (by decide), hnone 6 (by decide) (by decide),
    hnone 5 (by decide) (by decide), hnone 4 (by decide) (by decide),
    hnone 3 (by decide) (by decide), h2]
  rfl

/-- Witness for C3: the four-byte stream `50 4B 03 04`, positioned at its start, is
detected as Zip. -/
theorem detectFormatFromSig_zip_witness :
    (detectFormatFromSig ⟨[0x50, 0x4B, 0x03, 0x04], 0⟩).1 = .ok Zip.toBitInFormat
      ∧ Zip.toBitInFormat.value = 0x01 :=
  detectFormatFromSig_zip ⟨[0x50, 0x4B, 0x03, 0x04], 0⟩ [] rfl rfl

/-! ## Longest match first -/

/-- C4: zero-offset signatures are matched as prefixes, the longest first. For a stream
positioned at its start let `s` be its first eight bytes as a big-endian 64-bit value,
zero-padded when the stream is shorter. If for some `k` from 2 to 8 the value `s` with
all but its `k` most significant bytes cleared is a key of `common_signatures`, and `k`
is the largest such, then `detectFormatFromSig` returns the format listed under that
key, whatever else the stream holds. A stream starting `52 61 72 21 1A 07 01 00` gives
Rar5 and one starting `52 61 72 21 1A 07 00` gives Rar. -/
theorem detectFormatFromSig_longest_match (stream : IInStream) (hpos : stream.pos = 0) :
    (∀ (k : Nat) (format : BitInFormat), 2 ≤ k → k ≤ 8 →
        (clearLow (paddedSignature (bytesAt stream.content 0 8)) k, format)
          ∈ common_signatures →
        (∀ k', k < k' → k' ≤ 8 →
          clearLow (paddedSignature (bytesAt stream.content 0 8)) k'
            ∉ common_signatures.map Prod.fst) →
        (detectFormatFromSig stream).1 = .ok format)
    ∧ (∀ rest, stream.content = [0x52, 0x61, 0x72, 0x21, 0x1A, 0x07, 0x01, 0x00] ++ rest →
        (detectFormatFromSig stream).1 = .ok Rar5)
    ∧ (∀ rest, stream.content = [0x52, 0x61, 0x72, 0x21, 0x1A, 0x07, 0x00] ++ rest →
        (detectFormatFromSig stream).1 = .ok Rar) := by
  have hgen : ∀ (k : Nat) (format : BitInFormat), 2 ≤ k → k ≤ 8 →
      (clearLow (paddedSignature (bytesAt stream.content 0 8)) k, format)
        ∈ common_signatures →
      (∀ k', k < k' → k' ≤ 8 →
        clearLow (paddedSignature (bytesAt stream.content 0 8)) k'
          ∉ common_signatures.map Prod.fst) →
      (detectFormatFromSig stream).1 = .ok format := by
    intro k format hk2 hk8 hkey hlargest
    apply detect_of_zeroOffsetMatch
    rw [hpos]
    exact zeroOffsetMatch_of_largest _ k format hk2 hk8
      (common_signatures_find_of_mem _ _ hkey)
      (fun k' h1 h2 => (common_signatures_find_eq_none_iff _).mpr (hlargest k' h1 h2))
  refine ⟨hgen, ?_, ?_⟩
  · intro rest hcontent
    apply hgen 8 Rar5 (by decide) (by decide)
    · rw [clearLow_eight]
      have h := clearLow_paddedSignature (bytesAt stream.content 0 8) 8 (by decide)
      rw [clearLow_eight, hcontent,
        bytesAt_zero_take [0x52, 0x61, 0x72, 0x21, 0x1A, 0x07, 0x01, 0x00] rest 8 8 rfl
          (by decide)] at h
      rw [hcontent, h]
      decide
    · intro k' h1 h2
      omega
  · intro rest hcontent
    have h7 : clearLow (paddedSignature (bytesAt stream.content 0 8)) 7
        = 0x526172211A070000 := by
      rw [clearLow_paddedSignature _ 7 (by decide), hcontent,
        bytesAt_zero_take [0x52, 0x61, 0x72, 0x21, 0x1A, 0x07, 0x00] rest 8 7 rfl (by decide)]
      rfl
    have hv := paddedSignature_lt (bytesAt stream.content 0 8)
    generalize paddedSignature (bytesAt stream.content 0 8) = v at h7 hv hgen
    by_cases h8 : v = 0x526172211A070000
    · apply hgen 8 Rar (by decide) (by decide)
      · rw [clearLow_eight, h8]; decide
      · intro k' h1 h2; omega
    · apply hgen 7 Rar (by decide) (by decide)
      · rw [h7]; decide
      · intro k' h1 h2
        have : k' = 8 := by omega
        subst this
        rw [clearLow_eight, ← common_signatures_find_eq_none_iff]
        have htable : ∀ e ∈ common_signatures,
            e.1 < 0x526172211A070001 ∨ 0x526172211A0700FF < e.1 := by decide
        apply common_signatures_find_none_of_between _ _ htable
        · simp only [clearLow] at h7; norm_num at h7; omega
        · simp only [clearLow] at h7; norm_num at h7; omega

/-- Witness for C4: in the stream `50 4B 03 04 14` the longest prefix that is a key is
the two-byte prefix `50 4B`, and the stream is detected as Zip. -/
theorem detectFormatFromSig_longest_match_witness :
    (detectFormatFromSig ⟨[0x50, 0x4B, 0x03, 0x04, 0x14], 0⟩).1 = .ok Zip.toBitInFormat :=
  (detectFormatFromSig_longest_match ⟨[0x50, 0x4B, 0x03, 0x04, 0x14], 0⟩ rfl).1
    2 Zip.toBitInFormat (by decide) (by decide) (by decide)
    (fun k' h1 h2 => by
      have hk : k' = 3 ∨ k' = 4 ∨ k' = 5 ∨ k' = 6 ∨ k' = 7 ∨ k' = 8 := by omega
      rcases hk with rfl | rfl | rfl | rfl | rfl | rfl <;> decide)

/-! ## Ntfs at offset 3 -/

/-- C5: offset-anchored NTFS detection. A stream positioned at its start that is all
zeros except the bytes `4E 54 46 53 20 20 20 20` at offsets 3..10 is detected as Ntfs; a
stream that is all zeros except those eight bytes at offsets 0..7 is not detected as
Ntfs. -/
theorem detectFormatFromSig_ntfs (stream : IInStream) (hpos : stream.pos = 0) :
    (∀ m, stream.content
          = [0, 0, 0, 0x4E, 0x54, 0x46, 0x53, 0x20, 0x20, 0x20, 0x20] ++ List.replicate m 0 →
        (detectFormatFromSig stream).1 = .ok Ntfs)
    ∧ (∀ m, stream.content
          = [0x4E, 0x54, 0x46, 0x53, 0x20, 0x20, 0x20, 0x20] ++ List.replicate m 0 →
        (detectFormatFromSig stream).1 ≠ .ok Ntfs) := by
  constructor
  · intro m hcontent
    rw [detectFormatFromSig_eq, hpos, hcontent]
    simp only []
    rw [detectOutcome_append_zeros]
    decide
  · intro m hcontent
    rw [detectFormatFromSig_eq, hpos, hcontent]
    simp only []
    rw [detectOutcome_append_zeros]
    decide

/-- Witness for C5: the eleven-byte stream `00 00 00 4E 54 46 53 20 20 20 20`,
positioned at its start, is detected as Ntfs. -/
theorem detectFormatFromSig_ntfs_witness :
    (detectFormatFromSig
      ⟨[0, 0, 0, 0x4E, 0x54, 0x46, 0x53, 0x20, 0x20, 0x20, 0x20], 0⟩).1 = .ok Ntfs :=
  (detectFormatFromSig_ntfs
    ⟨[0, 0, 0, 0x4E, 0x54, 0x46, 0x53, 0x20, 0x20, 0x20, 0x20], 0⟩ rfl).1 0 rfl

/-! ## GPT before Fat -/

/-- C6: GPT before FAT. For a stream positioned at its start that holds `55 AA` at offset
`0x1FE` and `45 46 49 20 50 41 52 54` ("EFI PART") at offset `0x200` (so that both the Fat
entry and the GPT entry match), `detectFormatFromSig` never returns Fat; and when no
zero-offset prefix is a key and none of the six entries declared before GPT (Lzh, Ntfs,
Nsis, CramFS, VDI, Tar) matches, it returns GPT. -/
theorem detectFormatFromSig_gpt_before_fat (stream : IInStream) (hpos : stream.pos = 0)
    (hfat : bytesAt stream.content 0x1FE 2 = [0x55, 0xAA])
    (hgpt : bytesAt stream.content 0x200 8
      = [0x45, 0x46, 0x49, 0x20, 0x50, 0x41, 0x52, 0x54]) :
    ((⟨0x55AA000000000000, 0x1FE, 2, Fat⟩ : OffsetSignature).matchesAt stream.content = true
      ∧ (⟨0x4546492050415254, 0x200, 8, GPT⟩ : OffsetSignature).matchesAt stream.content
          = true)
    ∧ (detectFormatFromSig stream).1 ≠ .ok Fat
    ∧ (common_signatures_with_offset.take 6).map (·.format)
        = [Lzh, Ntfs, Nsis, CramFS, VDI, Tar.toBitInFormat]
    ∧ ((∀ k, 2 ≤ k → k ≤ 8 →
          clearLow (paddedSignature (bytesAt stream.content 0 8)) k
            ∉ common_signatures.map Prod.fst) →
        (∀ sig ∈ common_signatures_with_offset.take 6, sig.matchesAt stream.content = false) →
        (detectFormatFromSig stream).1 = .ok GPT) := by
  have hF : (⟨0x55AA000000000000, 0x1FE, 2, Fat⟩ : OffsetSignature).matchesAt stream.content
      = true := by
    simp only [OffsetSignature.matchesAt, hfat]; decide
  have hG : (⟨0x4546492050415254, 0x200, 8, GPT⟩ : OffsetSignature).matchesAt stream.content
      = true := by
    simp only [OffsetSignature.matchesAt, hgpt]; decide
  obtain ⟨hcases, hfirst⟩ := offsetMatch_gpt stream.content hG
  refine ⟨⟨hF, hG⟩, ?_, by decide, ?_⟩
  · rw [detectFormatFromSig_eq, hpos]
    simp only []
    unfold detectOutcome
    have hsnd : ∀ f ∈ common_signatures.map Prod.snd, f ≠ Fat := by decide
    split
    · rename_i f hf
      intro h; injection h with h
      exact hsnd _ (zeroOffsetMatch_mem _ _ hf) h
    · split
      · rename_i f hf
        intro h; injection h with h
        subst h
        rw [hf] at hcases
        revert hcases
        decide
      · rename_i hf
        rcases hcases with h | h | h | h | h | h | h <;> rw [h] at hf <;> cases hf
  · intro hzero hbefore
    rw [detectFormatFromSig_eq, hpos]
    simp only []
    exact detectOutcome_offset_some _ _ _ ((zeroOffsetMatch_eq_none_iff _).mpr hzero)
      (hfirst hbefore)

/-- Witness for C6: 510 zero bytes followed by `55 AA` and "EFI PART" satisfy both the Fat
and the GPT signature, and the stream is detected as GPT. -/
theorem detectFormatFromSig_gpt_before_fat_witness :
    (detectFormatFromSig
      ⟨List.replicate 0x1FE 0
        ++ [0x55, 0xAA, 0x45, 0x46, 0x49, 0x20, 0x50, 0x41, 0x52, 0x54], 0⟩).1 = .ok GPT :=
  (detectFormatFromSig_gpt_before_fat
    ⟨List.replicate 0x1FE 0
      ++ [0x55, 0xAA, 0x45, 0x46, 0x49, 0x20, 0x50, 0x41, 0x52, 0x54], 0⟩ rfl
    (by rw [bytesAt_zeros_append_hi _ _ _ _ (by decide)]; decide)
    (by rw [bytesAt_zeros_append_hi _ _ _ _ (by decide)]; decide)).2.2.2
    (zeroOffset_zeros_append_lo _ _ (by decide))
    (fun sig hsig => by
      have h : sig.offset + sig.size ≤ 0x1FE ∧ sig.signature ≠ 0 := by
        revert sig; decide
      exact matchesAt_zeros_append_lo _ _ sig h.1 h.2)

/-! ## Iso and Udf -/

/-- C7: the ISO/UDF probe. Take a stream positioned at its start on which no zero-offset
prefix is a key and no offset-signature entry matches, and whose five bytes at `0x8001`
are `CD001`. If none of the 16 descriptor slots at `0x8001 + k * 2048`, `k = 1..16`,
begins with `NSR0`, `detectFormatFromSig` returns Iso; if slot 3 (offset `0x9801`) begins
with `NSR0`, it returns Udf. -/
theorem detectFormatFromSig_iso_udf (stream : IInStream) (hpos : stream.pos = 0)
    (hzero : ∀ k, 2 ≤ k → k ≤ 8 →
      clearLow (paddedSignature (bytesAt stream.content 0 8)) k
        ∉ common_signatures.map Prod.fst)
    (hoff : ∀ sig ∈ common_signatures_with_offset, sig.matchesAt stream.content = false)
    (hiso : bytesAt stream.content 0x8001 5 = [0x43, 0x44, 0x30, 0x30, 0x31]) :
    ((∀ k, 1 ≤ k → k ≤ 16 →
        bytesAt stream.content (0x8001 + k * 2048) 4 ≠ [0x4E, 0x53, 0x52, 0x30]) →
      (detectFormatFromSig stream).1 = .ok Iso)
    ∧ (bytesAt stream.content 0x9801 4 = [0x4E, 0x53, 0x52, 0x30] →
      (detectFormatFromSig stream).1 = .ok Udf) := by
  have hprobe := detectOutcome_probe stream.content 0
    ((zeroOffsetMatch_eq_none_iff _).mpr hzero)
    ((offsetMatch_eq_none_iff _).mpr hoff) ((isoMatch_iff _).mpr hiso)
  rw [detectFormatFromSig_eq, hpos]
  simp only []
  rw [hprobe]
  constructor
  · intro hnone
    have hany : (List.range 15).any (fun i => udfMatchAt stream.content (1 + i)) = false := by
      rw [List.any_eq_false]
      intro i hi
      rw [List.mem_range] at hi
      rw [udfMatchAt_iff]
      exact hnone (1 + i) (by omega) (by omega)
    rw [hany]
    rfl
  · intro hudf
    have hany : (List.range 15).any (fun i => udfMatchAt stream.content (1 + i)) = true := by
      rw [List.any_eq_true]
      refine ⟨2, by simp, ?_⟩
      rw [udfMatchAt_iff]
      exact hudf
    rw [hany]
    rfl

/-- Witness for C7: 0x8001 zero bytes followed by `CD001` are detected as Iso, and with
`NSR0` added at offset `0x9801` (slot 3) as Udf. -/
theorem detectFormatFromSig_iso_udf_witness :
    (detectFormatFromSig
        ⟨List.replicate 0x8001 0 ++ [0x43, 0x44, 0x30, 0x30, 0x31], 0⟩).1 = .ok Iso
    ∧ (detectFormatFromSig
        ⟨List.replicate 0x8001 0 ++ ([0x43, 0x44, 0x30, 0x30, 0x31]
          ++ (List.replicate 0x17FB 0 ++ [0x4E, 0x53, 0x52, 0x30])), 0⟩).1 = .ok Udf :=
  ⟨(detectFormatFromSig_iso_udf
      ⟨List.replicate 0x8001 0 ++ [0x43, 0x44, 0x30, 0x30, 0x31], 0⟩ rfl
      (zeroOffset_zeros_append_lo _ _ (by decide))
      (offsetMatch_zeros_append _ _ (by decide))
      (by rw [bytesAt_zeros_append_hi _ _ _ _ (by decide)]; decide)).1
      (fun k h1 _ => by
        rw [bytesAt_zeros_append_hi _ _ _ _ (by omega),
          bytesAt_eq_nil _ _ _ (by simp; omega)]
        simp),
    (detectFormatFromSig_iso_udf
      ⟨List.replicate 0x8001 0 ++ ([0x43, 0x44, 0x30, 0x30, 0x31]
        ++ (List.replicate 0x17FB 0 ++ [0x4E, 0x53, 0x52, 0x30])), 0⟩ rfl
      (zeroOffset_zeros_append_lo _ _ (by decide))
      (offsetMatch_zeros_append _ _ (by decide))
      (by rw [bytesAt_zeros_append_hi _ _ _ _ (by decide)]; decide)).2
      (by
        rw [bytesAt_zeros_append_hi _ _ _ _ (by decide),
          bytesAt_append_hi _ _ _ _ (by decide),
          bytesAt_zeros_append_hi _ _ _ _ (by decide)]
        decide)⟩

/-! ## The extent of the UDF scan -/

/-- C8, the claim as stated fails: in the image with `CD001` at `0x8001` and `NSR0` at the
start of descriptor slot 16 (offset `0x8001 + 16 * 2048`) and zeros elsewhere, no earlier
strategy matches, yet `detectFormatFromSig` returns Iso, not Udf: the loop runs over the
descriptor indices 1 to 15 only. -/
theorem detectFormatFromSig_udf_slot16_counterexample :
    (⟨udfAtSlot 16, 0⟩ : IInStream).pos = 0
    ∧ (∀ k, 2 ≤ k → k ≤ 8 →
        clearLow (paddedSignature (bytesAt (udfAtSlot 16) 0 8)) k
          ∉ common_signatures.map Prod.fst)
    ∧ (∀ sig ∈ common_signatures_with_offset, sig.matchesAt (udfAtSlot 16) = false)
    ∧ bytesAt (udfAtSlot 16) 0x8001 5 = [0x43, 0x44, 0x30, 0x30, 0x31]
    ∧ (1 ≤ 16 ∧ 16 ≤ 16
        ∧ bytesAt (udfAtSlot 16) (0x8001 + 16 * 2048) 4 = [0x4E, 0x53, 0x52, 0x30])
    ∧ (detectFormatFromSig ⟨udfAtSlot 16, 0⟩).1 = .ok Iso
    ∧ (detectFormatFromSig ⟨udfAtSlot 16, 0⟩).1 ≠ .ok Udf := by
  have hzero : ∀ k, 2 ≤ k → k ≤ 8 →
      clearLow (paddedSignature (bytesAt (udfAtSlot 16) 0 8)) k
        ∉ common_signatures.map Prod.fst :=
    zeroOffset_zeros_append_lo 0x8001 _ (by decide)
  have hoff : ∀ sig ∈ common_signatures_with_offset,
      sig.matchesAt (udfAtSlot 16) = false :=
    offsetMatch_zeros_append 0x8001 _ (by decide)
  have hiso := udfAtSlot_iso 16
  have hany : (List.range 15).any (fun i => udfMatchAt (udfAtSlot 16) (1 + i)) = false := by
    rw [List.any_eq_false]
    intro i hi
    rw [List.mem_range] at hi
    rw [udfAtSlot_before 16 (1 + i) (by omega) (by omega)]
    decide
  have hres : (detectFormatFromSig ⟨udfAtSlot 16, 0⟩).1 = .ok Iso := by
    rw [detectFormatFromSig_eq]
    simp only []
    rw [detectOutcome_probe _ _ ((zeroOffsetMatch_eq_none_iff _).mpr hzero)
      ((offsetMatch_eq_none_iff _).mpr hoff) ((isoMatch_iff _).mpr hiso), hany]
    rfl
  refine ⟨rfl, hzero, hoff, hiso, ⟨by decide, by decide, udfAtSlot_self 16 (by decide)⟩,
    hres, ?_⟩
  rw [hres]
  decide

/-- C8 as amended: the UDF scan covers the 15 descriptor slots with index 1 to 15. For a
stream positioned at its start on which no zero-offset prefix is a key and no
offset-signature entry matches, and whose five bytes at `0x8001` are `CD001`, if `NSR0`
begins a slot at `0x8001 + k * 2048` with `1 <= k <= 15`, `detectFormatFromSig` returns
Udf. -/
theorem detectFormatFromSig_udf_scan (stream : IInStream) (hpos : stream.pos = 0)
    (hzero : ∀ k, 2 ≤ k → k ≤ 8 →
      clearLow (paddedSignature (bytesAt stream.content 0 8)) k
        ∉ common_signatures.map Prod.fst)
    (hoff : ∀ sig ∈ common_signatures_with_offset, sig.matchesAt stream.content = false)
    (hiso : bytesAt stream.content 0x8001 5 = [0x43, 0x44, 0x30, 0x30, 0x31])
    (k : Nat) (hk1 : 1 ≤ k) (hk15 : k ≤ 15)
    (hudf : bytesAt stream.content (0x8001 + k * 2048) 4 = [0x4E, 0x53, 0x52, 0x30]) :
    (detectFormatFromSig stream).1 = .ok Udf := by
  rw [detectFormatFromSig_eq, hpos]
  simp only []
  rw [detectOutcome_probe _ _ ((zeroOffsetMatch_eq_none_iff _).mpr hzero)
    ((offsetMatch_eq_none_iff _).mpr hoff) ((isoMatch_iff _).mpr hiso)]
  have hany : (List.range 15).any (fun i => udfMatchAt stream.content (1 + i)) = true := by
    rw [List.any_eq_true]
    refine ⟨k - 1, by rw [List.mem_range]; omega, ?_⟩
    have e : 1 + (k - 1) = k := by omega
    rw [e, udfMatchAt_iff]
    exact hudf
  rw [hany]
  rfl

/-- Witness for C8 as amended: the image with `NSR0` at the start of descriptor slot 15
is detected as Udf. -/
theorem detectFormatFromSig_udf_scan_witness :
    (detectFormatFromSig ⟨udfAtSlot 15, 0⟩).1 = .ok Udf :=
  detectFormatFromSig_udf_scan ⟨udfAtSlot 15, 0⟩ rfl
    (zeroOffset_zeros_append_lo 0x8001 _ (by decide))
    (offsetMatch_zeros_append 0x8001 _ (by decide))
    (udfAtSlot_iso 15) 15 (by decide) (by decide) (udfAtSlot_self 15 (by decide))

/-! ## Idempotence -/

/-- C9: signature detection is idempotent. For a stream positioned at its start, running
`detectFormatFromSig` and then running it again on the stream as the first run left it
gives the same outcome both times (the same descriptor, or the detection error both
times), and the stream position is 0 after each run. -/
theorem detectFormatFromSig_idempotent (stream : IInStream) (hpos : stream.pos = 0) :
    (detectFormatFromSig (detectFormatFromSig stream).2).1 = (detectFormatFromSig stream).1
    ∧ (detectFormatFromSig stream).2.pos = 0
    ∧ (detectFormatFromSig (detectFormatFromSig stream).2).2.pos = 0 := by
  rw [detectFormatFromSig_eq stream, detectFormatFromSig_eq ⟨stream.content, 0⟩, hpos]
  exact ⟨rfl, rfl, rfl⟩

/-- Witness for C9: on the stream `50 4B 03 04`, positioned at its start, both runs
return Zip and leave the position at 0. -/
theorem detectFormatFromSig_idempotent_witness :
    (detectFormatFromSig (detectFormatFromSig ⟨[0x50, 0x4B, 0x03, 0x04], 0⟩).2).1
        = (detectFormatFromSig ⟨[0x50, 0x4B, 0x03, 0x04], 0⟩).1
    ∧ (detectFormatFromSig ⟨[0x50, 0x4B, 0x03, 0x04], 0⟩).2.pos = 0
    ∧ (detectFormatFromSig (detectFormatFromSig ⟨[0x50, 0x4B, 0x03, 0x04], 0⟩).2).2.pos = 0 :=
  detectFormatFromSig_idempotent ⟨[0x50, 0x4B, 0x03, 0x04], 0⟩ rfl

/-! ## The position at which the signature is read -/

/-- C10, the claim as stated fails: two streams with the same content `50 4B 03 04`, one
positioned at 0 and one at 2, give different outcomes. The first is detected as Zip; the
second, whose signature is read from offset 2, fails. -/
theorem detectFormatFromSig_position_counterexample :
    (⟨[0x50, 0x4B, 0x03, 0x04], 0⟩ : IInStream).content
        = (⟨[0x50, 0x4B, 0x03, 0x04], 2⟩ : IInStream).content
    ∧ (detectFormatFromSig ⟨[0x50, 0x4B, 0x03, 0x04], 0⟩).1 = .ok Zip.toBitInFormat
    ∧ (detectFormatFromSig ⟨[0x50, 0x4B, 0x03, 0x04], 2⟩).1
        = .error "Cannot detect the format of the file"
    ∧ (detectFormatFromSig ⟨[0x50, 0x4B, 0x03, 0x04], 0⟩).1
        ≠ (detectFormatFromSig ⟨[0x50, 0x4B, 0x03, 0x04], 2⟩).1 := by
  decide

/-- C10 as amended: `detectFormatFromSig` takes the file signature from the current
position of the stream. The eight bytes it matches against the zero-offset table are the
bytes at offsets `p .. p + 7`, `p` being the position when the call is made (a prefix hit
on them decides the outcome), and two streams with equal content whose eight bytes at
their initial positions agree, as for two streams both positioned at the start, give the
same outcome. -/
theorem detectFormatFromSig_signature_at_position (s₁ s₂ : IInStream)
    (hcontent : s₁.content = s₂.content)
    (hsig : bytesAt s₁.content s₁.pos 8 = bytesAt s₂.content s₂.pos 8) :
    (readSignature s₁ SIGNATURE_SIZE).1 = paddedSignature (bytesAt s₁.content s₁.pos 8)
    ∧ (∀ format, zeroOffsetMatch (paddedSignature (bytesAt s₁.content s₁.pos 8)) = some format
        → (detectFormatFromSig s₁).1 = .ok format)
    ∧ (detectFormatFromSig s₁).1 = (detectFormatFromSig s₂).1
    ∧ (s₁.pos = 0 → s₂.pos = 0 → (detectFormatFromSig s₁).1 = (detectFormatFromSig s₂).1) := by
  have hsame : (detectFormatFromSig s₁).1 = (detectFormatFromSig s₂).1 := by
    rw [detectFormatFromSig_eq, detectFormatFromSig_eq]
    simp only []
    unfold detectOutcome
    simp only [SIGNATURE_SIZE]
    rw [hsig, hcontent]
  exact ⟨readSignature_fst s₁ SIGNATURE_SIZE (by decide),
    fun format h => detect_of_zeroOffsetMatch s₁ format h, hsame, fun _ _ => hsame⟩

/-- Witness for C10 as amended: the content `50 4B 03 04 00 00 00 00` twice in a row holds
the same eight bytes at offset 0 and at offset 8, so the stream positioned at 0 and the
stream positioned at 8 give the same outcome. -/
theorem detectFormatFromSig_signature_at_position_witness :
    (detectFormatFromSig
        ⟨[0x50, 0x4B, 0x03, 0x04, 0, 0, 0, 0, 0x50, 0x4B, 0x03, 0x04, 0, 0, 0, 0], 0⟩).1
      = (detectFormatFromSig
        ⟨[0x50, 0x4B, 0x03, 0x04, 0, 0, 0, 0, 0x50, 0x4B, 0x03, 0x04, 0, 0, 0, 0], 8⟩).1 :=
  (detectFormatFromSig_signature_at_position
    ⟨[0x50, 0x4B, 0x03, 0x04, 0, 0, 0, 0, 0x50, 0x4B, 0x03, 0x04, 0, 0, 0, 0], 0⟩
    ⟨[0x50, 0x4B, 0x03, 0x04, 0, 0, 0, 0, 0x50, 0x4B, 0x03, 0x04, 0, 0, 0, 0], 8⟩
    rfl (by decide)).2.2.1

/-! ## Detection does not write -/

/-- C11: detection is read-only. Whether `detectFormatFromSig` returns or fails, the byte
content of the stream after the call is the content before the call; only the position is
affected. -/
theorem detectFormatFromSig_content_unchanged (stream : IInStream) :
    (detectFormatFromSig stream).2.content = stream.content := by
  rw [detectFormatFromSig_eq]

/-! ## Extensions of the table -/

/-- C12: for every pair `(key, format)` listed in `common_extensions` and every file name
whose extension equals the key up to letter case, `detectFormatFromExt` returns exactly
the listed format; every key is lowercase and no key is listed with two formats. -/
theorem detectFormatFromExt_table (key : wstring) (format : BitInFormat) (in_file : wstring)
    (hentry : (key, format) ∈ common_extensions)
    (hext : (filesystem.fsutil.extension in_file).map towlower = key.map towlower) :
    detectFormatFromExt in_file = .ok format
    ∧ key.map towlower = key
    ∧ (∀ format', (key, format') ∈ common_extensions → format' = format) := by
  obtain ⟨hlower, hne, hlookup, _, _⟩ := common_extensions_facts (key, format) hentry
  simp only [] at hlower hne hlookup
  refine ⟨?_, hlower, ?_⟩
  · rw [hlower] at hext
    have hnonempty : filesystem.fsutil.extension in_file ≠ [] := by
      intro h
      rw [h] at hext
      exact hne hext.symm
    rw [detectFormatFromExt_eq, if_neg hnonempty, hext, hlookup]
  · intro format' hentry'
    have h' := (common_extensions_facts (key, format') hentry').2.2.1
    simp only [] at h'
    rw [hlookup] at h'
    injection h' with h'
    exact h'.symm

/-- Witness for C12: the file names `a.ZiP`, `b.JAR` and `c.Docx`, whose extensions equal
the keys `zip`, `jar` and `docx` up to letter case, are detected as Zip. -/
theorem detectFormatFromExt_table_witness :
    detectFormatFromExt "a.ZiP".toList = .ok Zip.toBitInFormat
    ∧ detectFormatFromExt "b.JAR".toList = .ok Zip.toBitInFormat
    ∧ detectFormatFromExt "c.Docx".toList = .ok Zip.toBitInFormat :=
  ⟨(detectFormatFromExt_table "zip".toList Zip.toBitInFormat "a.ZiP".toList
      (by decide) (by decide)).1,
    (detectFormatFromExt_table "jar".toList Zip.toBitInFormat "b.JAR".toList
      (by decide) (by decide)).1,
    (detectFormatFromExt_table "docx".toList Zip.toBitInFormat "c.Docx".toList
      (by decide) (by decide)).1⟩

/-! ## Split volumes -/

/-- C13: the split-volume rule. For every file name whose extension, after lowercasing,
is the letter `r` or `z` followed by exactly two decimal digits, `detectFormatFromExt`
returns Rar when the letter is `r` and Zip when it is `z` (no such extension is a key of
the table); when the lowercased extension is `r1` or `r100` the result is `Auto`. -/
theorem detectFormatFromExt_split_volume (in_file : wstring) :
    (∀ d1 d2 : Char, d1.isDigit = true → d2.isDigit = true →
        (filesystem.fsutil.extension in_file).map towlower = ['r', d1, d2] →
        ['r', d1, d2] ∉ common_extensions.map Prod.fst
          ∧ detectFormatFromExt in_file = .ok Rar)
    ∧ (∀ d1 d2 : Char, d1.isDigit = true → d2.isDigit = true →
        (filesystem.fsutil.extension in_file).map towlower = ['z', d1, d2] →
        ['z', d1, d2] ∉ common_extensions.map Prod.fst
          ∧ detectFormatFromExt in_file = .ok Zip.toBitInFormat)
    ∧ ((filesystem.fsutil.extension in_file).map towlower = ['r', '1'] →
        detectFormatFromExt in_file = .ok Auto)
    ∧ ((filesystem.fsutil.extension in_file).map towlower = ['r', '1', '0', '0'] →
        detectFormatFromExt in_file = .ok Auto) := by
  have hnonempty : ∀ l : wstring, l ≠ [] →
      (filesystem.fsutil.extension in_file).map towlower = l →
      filesystem.fsutil.extension in_file ≠ [] := by
    intro l hl h h0
    rw [h0] at h
    exact hl h.symm
  refine ⟨?_, ?_, ?_, ?_⟩
  · intro d1 d2 h1 h2 hext
    have hs : isSplitVolumeSuffix ['r', d1, d2] = true := by
      simp [isSplitVolumeSuffix, h1, h2]
    have hl := lookup_none_of_split_volume _ hs
    refine ⟨(common_extensions_lookup_eq_none_iff _).mp hl, ?_⟩
    rw [detectFormatFromExt_eq, if_neg (hnonempty _ (by simp) hext), hext, hl]
    simp only [hs, if_true]
    rfl
  · intro d1 d2 h1 h2 hext
    have hs : isSplitVolumeSuffix ['z', d1, d2] = true := by
      simp [isSplitVolumeSuffix, h1, h2]
    have hl := lookup_none_of_split_volume _ hs
    refine ⟨(common_extensions_lookup_eq_none_iff _).mp hl, ?_⟩
    rw [detectFormatFromExt_eq, if_neg (hnonempty _ (by simp) hext), hext, hl]
    simp only [hs, if_true]
    rfl
  · intro hext
    rw [detectFormatFromExt_eq, if_neg (hnonempty _ (by simp) hext), hext]
    rfl
  · intro hext
    rw [detectFormatFromExt_eq, if_neg (hnonempty _ (by simp) hext), hext]
    rfl

/-- Witness for C13: `x.r00`, `x.R15` and `x.z07` are detected as Rar, Rar and Zip, and
`x.r1` and `x.r100` give `Auto`. -/
theorem detectFormatFromExt_split_volume_witness :
    detectFormatFromExt "x.r00".toList = .ok Rar
    ∧ detectFormatFromExt "x.R15".toList = .ok Rar
    ∧ detectFormatFromExt "x.z07".toList = .ok Zip.toBitInFormat
    ∧ detectFormatFromExt "x.r1".toList = .ok Auto
    ∧ detectFormatFromExt "x.r100".toList = .ok Auto :=
  ⟨((detectFormatFromExt_split_volume "x.r00".toList).1 '0' '0'
      (by decide) (by decide) (by decide)).2,
    ((detectFormatFromExt_split_volume "x.R15".toList).1 '1' '5'
      (by decide) (by decide) (by decide)).2,
    ((detectFormatFromExt_split_volume "x.z07".toList).2.1 '0' '7'
      (by decide) (by decide) (by decide)).2,
    (detectFormatFromExt_split_volume "x.r1".toList).2.2.1 (by decide),
    (detectFormatFromExt_split_volume "x.r100".toList).2.2.2 (by decide)⟩

/-! ## Missing and unknown extensions -/

/-- C14: `detectFormatFromExt` fails, and then with the error "Cannot detect the archive
format from the extension", if and only if the file name has no extension, as for
`archive`. For a file name with a non-empty extension it returns a descriptor, and that
descriptor is `Auto` (code 0) exactly when the lowercased extension is neither a key of
the extension table nor an `r`/`z` split-volume suffix. -/
theorem detectFormatFromExt_error_iff (in_file : wstring) :
    (detectFormatFromExt in_file
        = .error "Cannot detect the archive format from the extension"
      ↔ filesystem.fsutil.extension in_file = [])
    ∧ (∀ e, detectFormatFromExt in_file = .error e
        → e = "Cannot detect the archive format from the extension")
    ∧ (filesystem.fsutil.extension in_file ≠ [] →
        ∃ format, detectFormatFromExt in_file = .ok format
          ∧ (format = Auto
              ↔ (filesystem.fsutil.extension in_file).map towlower
                  ∉ common_extensions.map Prod.fst
                ∧ isSplitVolumeSuffix ((filesystem.fsutil.extension in_file).map towlower)
                    = false)
          ∧ (format = Auto ↔ format.value = 0))
    ∧ filesystem.fsutil.extension "archive".toList = []
    ∧ detectFormatFromExt "archive".toList
        = .error "Cannot detect the archive format from the extension" := by
  have hval : ∀ format : BitInFormat, format = Auto ↔ format.value = 0 := by
    intro format
    cases format with
    | mk v =>
      simp only [BitInFormat.value, Int.natCast_eq_zero, Auto, BitInFormat.mk.injEq]
      exact ⟨fun h => by rw [h]; rfl, fun h => Fin.ext h⟩
  rw [detectFormatFromExt_eq]
  refine ⟨?_, ?_, ?_, by decide, by decide⟩
  · by_cases h : filesystem.fsutil.extension in_file = []
    · simp [h]
    · rw [if_neg h]
      simp only [h, iff_false]
      cases common_extensions.lookup ((filesystem.fsutil.extension in_file).map towlower) with
      | some format => simp
      | none =>
        simp only []
        split <;> simp
  · intro e
    by_cases h : filesystem.fsutil.extension in_file = []
    · rw [if_pos h]
      intro he
      injection he with he
      exact he.symm
    · rw [if_neg h]
      split
      · intro he; cases he
      · split <;> (intro he; cases he)
  · intro h
    rw [if_neg h]
    cases hl : common_extensions.lookup ((filesystem.fsutil.extension in_file).map towlower) with
    | some format =>
      refine ⟨format, rfl, ?_, hval format⟩
      have hmem := common_extensions_lookup_mem _ _ hl
      have hne : format ≠ Auto := (common_extensions_facts _ hmem).2.2.2.1
      constructor
      · intro hf; exact absurd hf hne
      · rintro ⟨hnot, _⟩
        exact absurd (List.mem_map.mpr ⟨_, hmem, rfl⟩) hnot
    | none =>
      have hnot := (common_extensions_lookup_eq_none_iff _).mp hl
      simp only []
      by_cases hs : isSplitVolumeSuffix ((filesystem.fsutil.extension in_file).map towlower) = true
      · rw [if_pos hs]
        refine ⟨_, rfl, ?_, hval _⟩
        constructor
        · intro hf
          exfalso
          revert hf
          split <;> decide
        · rintro ⟨_, hfalse⟩
          rw [hs] at hfalse
          cases hfalse
      · rw [if_neg hs]
        refine ⟨Auto, rfl, ?_, hval _⟩
        simp only [true_iff]
        exact ⟨hnot, by simpa using hs⟩

/-- Witness for C14: `x.iso` has the non-empty extension `iso`, which is neither a key
nor a split-volume suffix, and the result is `Auto`. -/
theorem detectFormatFromExt_error_iff_witness :
    ∃ format, detectFormatFromExt "x.iso".toList = .ok format
      ∧ (format = Auto
          ↔ (filesystem.fsutil.extension "x.iso".toList).map towlower
              ∉ common_extensions.map Prod.fst
            ∧ isSplitVolumeSuffix ((filesystem.fsutil.extension "x.iso".toList).map towlower)
                = false)
      ∧ (format = Auto ↔ format.value = 0) :=
  (detectFormatFromExt_error_iff "x.iso".toList).2.2.1 (by decide)

/-! ## Distinct codes -/

/-- C15: the numeric codes of the 55 descriptors declared in the catalog are pairwise
distinct, so no two distinct catalog entries compare equal under `operator==`, in either
order. -/
theorem catalog_codes_distinct :
    catalog.length = 55
    ∧ (catalog.map BitInFormat.value).Nodup
    ∧ catalog.Pairwise (fun a b => a.operatorEq b = false ∧ b.operatorEq a = false) := by
  refine ⟨by decide, by decide, by decide⟩

/-! ## Equality of descriptors -/

/-- C16: descriptor equality is decided by the numeric code alone. For all descriptors
`a == b` holds iff `a.value() == b.value()`, `a != b` holds iff `a == b` does not, and
`==` is reflexive, symmetric and transitive; two read-write descriptors constructed with
the same code compare equal whatever their extension, default method and feature set. -/
theorem operatorEq_by_code (a b c : BitInFormat) :
    (a.operatorEq b = true ↔ a.value = b.value)
    ∧ (a.operatorNe b = true ↔ ¬ (a.operatorEq b = true))
    ∧ a.operatorEq a = true
    ∧ (a.operatorEq b = true → b.operatorEq a = true)
    ∧ (a.operatorEq b = true → b.operatorEq c = true → a.operatorEq c = true)
    ∧ (∀ (x y : BitInOutFormat),
        x.toBitInFormat.operatorEq y.toBitInFormat = true ↔ x.value = y.value)
    ∧ (∀ (value : Fin 256) (ext₁ ext₂ : String) (m₁ m₂ : BitCompressionMethod)
        (f₁ f₂ : FeaturesSet),
        (BitInOutFormat.new value ext₁ m₁ f₁).toBitInFormat.operatorEq
          (BitInOutFormat.new value ext₂ m₂ f₂).toBitInFormat = true) := by
  have key : ∀ x y : BitInFormat, x.operatorEq y = true ↔ x.value = y.value := by
    intro x y
    simp [BitInFormat.operatorEq, BitInFormat.value]
  refine ⟨key a b, ?_, (key a a).mpr rfl, ?_, ?_, ?_, ?_⟩
  · simp [BitInFormat.operatorNe]
  · intro h
    exact (key b a).mpr ((key a b).mp h).symm
  · intro h₁ h₂
    exact (key a c).mpr (((key a b).mp h₁).trans ((key b c).mp h₂))
  · intro x y
    exact key _ _
  · intro value ext₁ ext₂ m₁ m₂ f₁ f₂
    exact (key _ _).mpr rfl

/-- Witness for C16: Zip compares equal to itself and unequal to Rar, and a read-write
descriptor with the code of Zip but another extension and no feature compares equal to
Zip. -/
theorem operatorEq_by_code_witness :
    Zip.toBitInFormat.operatorEq Zip.toBitInFormat = true
    ∧ Zip.toBitInFormat.operatorNe Rar = true
    ∧ (BitInOutFormat.new 0x01 ".zipx" BitCompressionMethod.Copy 0).toBitInFormat.operatorEq
        Zip.toBitInFormat = true :=
  ⟨(operatorEq_by_code Zip.toBitInFormat Rar Auto).2.2.1,
    (operatorEq_by_code Zip.toBitInFormat Rar Auto).2.1.mpr (by decide),
    (operatorEq_by_code Zip.toBitInFormat Rar Auto).2.2.2.2.2.1 _ _ |>.mpr (by decide)⟩

/-! ## Header encryption -/

/-- C17, the code at the failing input: the catalog gives `Xz` the flag
`HEADER_ENCRYPTION`, so `hasFeature( HEADER_ENCRYPTION )` is true for `Xz` as well as for
`SevenZip`; it is false for the five other read-write descriptors. -/
theorem hasFeature_header_encryption :
    Xz.hasFeature .HEADER_ENCRYPTION = true
    ∧ SevenZip.hasFeature .HEADER_ENCRYPTION = true
    ∧ readWriteCatalog.filter (fun format => format.hasFeature .HEADER_ENCRYPTION)
        = [SevenZip, Xz] := by
  decide

/-! ## Features of a read-write descriptor -/

/-- C18: the flags are distinct single bits, and for every read-write descriptor
constructed with the feature set `f1 | f2 | ...` and every flag `f`, `hasFeature( f )` is
true iff `f` is one of the flags OR-ed into that set, and `features()` returns the set
unchanged. Consequently the catalog descriptors `GZip` and `BZip2` report
`hasFeature( ENCRYPTION ) = false`. -/
theorem hasFeature_iff_constructed (value : Fin 256) (ext : String)
    (defaultMethod : BitCompressionMethod) (flags : List FormatFeatures)
    (f : FormatFeatures) :
    ((∃ i, f.toMask = 2 ^ i) ∧ ∀ g : FormatFeatures, g.toMask = f.toMask → g = f)
    ∧ ((BitInOutFormat.new value ext defaultMethod (featuresOf flags)).hasFeature f = true
        ↔ f ∈ flags)
    ∧ (BitInOutFormat.new value ext defaultMethod (featuresOf flags)).features
        = featuresOf flags
    ∧ GZip = BitInOutFormat.new 0xEF ".gz" BitCompressionMethod.Deflate
        (featuresOf [.COMPRESSION_LEVEL, .INMEM_COMPRESSION])
    ∧ BZip2 = BitInOutFormat.new 0x02 ".bz2" BitCompressionMethod.BZip2
        (featuresOf [.COMPRESSION_LEVEL, .INMEM_COMPRESSION])
    ∧ GZip.hasFeature .ENCRYPTION = false
    ∧ BZip2.hasFeature .ENCRYPTION = false := by
  refine ⟨⟨⟨_, toMask_eq_two_pow f⟩, ?_⟩, ?_, rfl, by decide, by decide, by decide, by decide⟩
  · intro g hg
    rw [toMask_eq_two_pow, toMask_eq_two_pow] at hg
    exact toCtorIdx_injective _ _ (Nat.pow_right_injective (le_refl 2) hg)
  · rw [hasFeature_iff_testBit]
    show (featuresOf flags).testBit f.toCtorIdx = true ↔ f ∈ flags
    unfold featuresOf
    rw [testBit_foldl_features]
    simp

/-! ## The order of the offset entries -/

/-- C19: offset-anchored signatures are tried in declared order with exact comparison.
An entry matches exactly when the `size` bytes at its offset equal its leading bytes (a
read that comes up short never matches). For a stream positioned at its start on which no
zero-offset prefix is a key, `detectFormatFromSig` returns the format of the first entry
of `common_signatures_with_offset`, in declaration order, that matches. A stream with
`ustar` at `0x101` and `55 AA` at `0x1FE` is never reported as Fat, and is reported as
Tar when none of the five entries declared before Tar matches. -/
theorem detectFormatFromSig_offset_order (stream : IInStream) (hpos : stream.pos = 0)
    (hzero : ∀ k, 2 ≤ k → k ≤ 8 →
      clearLow (paddedSignature (bytesAt stream.content 0 8)) k
        ∉ common_signatures.map Prod.fst) :
    (∀ sig ∈ common_signatures_with_offset,
        (readSignature (stream.Seek sig.offset) sig.size).1 = sig.signature
          ↔ bytesAt stream.content sig.offset sig.size = sig.leadingBytes)
    ∧ (∀ sig ∈ common_signatures_with_offset,
        (bytesAt stream.content sig.offset sig.size).length < sig.size →
          (readSignature (stream.Seek sig.offset) sig.size).1 ≠ sig.signature)
    ∧ (∀ sig, common_signatures_with_offset.find? (fun sig => sig.exactAt stream.content)
          = some sig →
        (detectFormatFromSig stream).1 = .ok sig.format)
    ∧ (bytesAt stream.content 0x101 5 = [0x75, 0x73, 0x74, 0x61, 0x72] →
        bytesAt stream.content 0x1FE 2 = [0x55, 0xAA] →
        (detectFormatFromSig stream).1 ≠ .ok Fat
        ∧ ((∀ sig ∈ common_signatures_with_offset.take 5,
              bytesAt stream.content sig.offset sig.size ≠ sig.leadingBytes) →
            (detectFormatFromSig stream).1 = .ok Tar.toBitInFormat)) := by
  have hz := (zeroOffsetMatch_eq_none_iff _).mpr hzero
  have hexact : ∀ sig ∈ common_signatures_with_offset,
      ((readSignature (stream.Seek sig.offset) sig.size).1 = sig.signature
        ↔ bytesAt stream.content sig.offset sig.size = sig.leadingBytes) := by
    intro sig hsig
    have h := matchesAt_iff_exactAt sig hsig stream.content
    simp only [OffsetSignature.matchesAt, OffsetSignature.exactAt, decide_eq_decide] at h
    rw [readSignature_fst _ _ (offset_sizes_le sig hsig)]
    exact h
  have hfind : common_signatures_with_offset.find? (fun sig => sig.matchesAt stream.content)
      = common_signatures_with_offset.find? (fun sig => sig.exactAt stream.content) :=
    find?_congr_mem _ _ _ (fun sig hsig => matchesAt_iff_exactAt sig hsig stream.content)
  have hfirst : ∀ sig,
      common_signatures_with_offset.find? (fun sig => sig.exactAt stream.content) = some sig →
      (detectFormatFromSig stream).1 = .ok sig.format := by
    intro sig hsig
    rw [detectFormatFromSig_eq, hpos]
    simp only []
    apply detectOutcome_offset_some _ _ _ hz
    unfold offsetMatch
    rw [hfind, hsig]
    rfl
  refine ⟨hexact, ?_, hfirst, ?_⟩
  · intro sig hsig hshort h
    have := (hexact sig hsig).mp h
    rw [this, (offset_table_facts sig hsig).1] at hshort
    exact Nat.lt_irrefl _ hshort
  · intro hustar hfat
    have htar : (⟨0x7573746172000000, 0x101, 5, Tar.toBitInFormat⟩ : OffsetSignature).exactAt
        stream.content = true := by
      simp only [OffsetSignature.exactAt, hustar]; decide
    have hcases : ∃ sig,
        common_signatures_with_offset.find? (fun sig => sig.exactAt stream.content) = some sig
          ∧ sig.format ≠ Fat
          ∧ ((∀ sig ∈ common_signatures_with_offset.take 5,
                sig.exactAt stream.content = false) → sig.format = Tar.toBitInFormat) := by
      unfold common_signatures_with_offset
      simp only [List.find?_cons, htar, List.take, List.mem_cons, List.mem_singleton,
        List.not_mem_nil, or_false, forall_eq_or_imp, forall_eq]
      repeat' split
      all_goals first
        | exact ⟨_, rfl, by decide, fun _ => rfl⟩
        | (refine ⟨_, rfl, by decide, ?_⟩
           rintro ⟨h1, h2, h3, h4, h5⟩
           simp_all)
    obtain ⟨sig, hsig, hne, htarfirst⟩ := hcases
    have hres := hfirst sig hsig
    refine ⟨?_, ?_⟩
    · rw [hres]
      intro h
      injection h with h
      exact hne h
    · intro hbefore
      rw [hres, htarfirst]
      intro s hs
      simp only [OffsetSignature.exactAt, decide_eq_false_iff_not]
      exact hbefore s hs

/-- Witness for C19: in the stream that is all zeros except `ustar` at `0x101` and `55 AA`
at `0x1FE`, both the Tar entry and the Fat entry match; the Tar entry is declared first
and the stream is detected as Tar. -/
theorem detectFormatFromSig_offset_order_witness :
    (detectFormatFromSig
      ⟨List.replicate 0x101 0 ++ ([0x75, 0x73, 0x74, 0x61, 0x72]
        ++ (List.replicate 0xF8 0 ++ [0x55, 0xAA])), 0⟩).1 = .ok Tar.toBitInFormat :=
  ((detectFormatFromSig_offset_order
      ⟨List.replicate 0x101 0 ++ ([0x75, 0x73, 0x74, 0x61, 0x72]
        ++ (List.replicate 0xF8 0 ++ [0x55, 0xAA])), 0⟩ rfl
      (zeroOffset_zeros_append_lo _ _ (by decide))).2.2.2
    (by rw [bytesAt_zeros_append_hi _ _ _ _ (by decide)]; decide)
    (by
      rw [bytesAt_zeros_append_hi _ _ _ _ (by decide),
        bytesAt_append_hi _ _ _ _ (by decide),
        bytesAt_zeros_append_hi _ _ _ _ (by decide)]
      decide)).2
    (fun sig hsig => by
      have h : sig.offset + sig.size ≤ 0x101
          ∧ List.replicate sig.size (0 : Byte) ≠ sig.leadingBytes := by
        revert sig; decide
      rw [bytesAt_zeros_append_lo _ _ _ _ h.1]
      exact h.2)

/-! ## The value and the position after readSignature -/

/-- C20: for every stream and every `n <= 8`, `readSignature( stream, n )` reads the next
`min(n, bytes remaining)` bytes; it returns the 64-bit value whose byte `i` from the most
significant end is the `i`-th byte read (the first byte read is the most significant) and
whose remaining low-order bytes are all zero, and it advances the stream position by the
number of bytes read. -/
theorem readSignature_value (stream : IInStream) (n : Nat) (hn : n ≤ 8) :
    (bytesAt stream.content stream.pos n).length
        = min n (stream.content.length - stream.pos)
    ∧ (∀ i (hi : i < (bytesAt stream.content stream.pos n).length),
        (bytesAt stream.content stream.pos n).get ⟨i, hi⟩
          = stream.content.getD (stream.pos + i) 0)
    ∧ (readSignature stream n).1 < 2 ^ 64
    ∧ (∀ i, i < 8 →
        (readSignature stream n).1 / 256 ^ (7 - i) % 256
          = ((bytesAt stream.content stream.pos n).getD i 0).val)
    ∧ (readSignature stream n).1
        = bigEndian (bytesAt stream.content stream.pos n)
            * 256 ^ (8 - (bytesAt stream.content stream.pos n).length)
    ∧ (readSignature stream n).2.pos
        = stream.pos + (bytesAt stream.content stream.pos n).length
    ∧ (readSignature stream n).2.content = stream.content := by
  have hv := readSignature_fst stream n hn
  refine ⟨bytesAt_length _ _ _, ?_, ?_, ?_, ?_, rfl, rfl⟩
  · intro i hi
    have hi' := hi
    rw [bytesAt_length] at hi'
    simp only [bytesAt, List.get_eq_getElem, List.getElem_take, List.getElem_drop]
    rw [List.getD_eq_getElem?_getD, List.getElem?_eq_getElem (by omega)]
    rfl
  · rw [hv]; exact paddedSignature_lt _
  · intro i hi
    rw [hv]
    exact paddedSignature_digit _ i hi
  · rw [hv]
    exact paddedSignature_eq_shift _ (le_trans (bytesAt_length_le _ _ _) hn)

/-- Witness for C20: reading 5 bytes at position 1 of the content `00 43 44 30` delivers
the three bytes left, gives `0x4344300000000000` and moves the position to 4. -/
theorem readSignature_value_witness :
    (readSignature ⟨[0x00, 0x43, 0x44, 0x30], 1⟩ 5).1 = 0x4344300000000000
    ∧ (readSignature ⟨[0x00, 0x43, 0x44, 0x30], 1⟩ 5).2.pos = 4 :=
  ⟨((readSignature_value ⟨[0x00, 0x43, 0x44, 0x30], 1⟩ 5 (by decide)).2.2.2.2.1).trans
      (by decide),
    (readSignature_value ⟨[0x00, 0x43, 0x44, 0x30], 1⟩ 5 (by decide)).2.2.2.2.2.1⟩

/-! ## Disk-image extensions -/

/-- C21: the ambiguous disk-image extensions are decided by content, not by name. Neither
`iso` nor `img` is a key of the extension table, and for every file name whose extension
is `iso` or `img` in any letter case `detectFormatFromExt` does not fail and returns
`Auto`. -/
theorem detectFormatFromExt_iso_img (in_file : wstring) :
    "iso".toList ∉ common_extensions.map Prod.fst
    ∧ "img".toList ∉ common_extensions.map Prod.fst
    ∧ ((filesystem.fsutil.extension in_file).map towlower = "iso".toList
        ∨ (filesystem.fsutil.extension in_file).map towlower = "img".toList
        → detectFormatFromExt in_file = .ok Auto) := by
  refine ⟨by decide, by decide, ?_⟩
  intro h
  have hnonempty : filesystem.fsutil.extension in_file ≠ [] := by
    intro h0
    rw [h0] at h
    rcases h with h | h <;> exact absurd h (by decide)
  rw [detectFormatFromExt_eq, if_neg hnonempty]
  rcases h with h | h <;> rw [h] <;> rfl

/-- Witness for C21: `disk.ISO` and `disk.Img` give `Auto`. -/
theorem detectFormatFromExt_iso_img_witness :
    detectFormatFromExt "disk.ISO".toList = .ok Auto
    ∧ detectFormatFromExt "disk.Img".toList = .ok Auto :=
  ⟨(detectFormatFromExt_iso_img "disk.ISO".toList).2.2 (Or.inl (by decide)),
    (detectFormatFromExt_iso_img "disk.Img".toList).2.2 (Or.inr (by decide))⟩

/-! ## The GUID of a descriptor -/

/-- C22: for every descriptor with code `c`, `guid()` is
`{ 0x23170F69, 0x40C1, 0x278A, { 0x10, 0x00, 0x00, 0x01, 0x10, c, 0x00, 0x00 } }`: only
the sixth byte of the last field varies and it is the code, so two descriptors have the
same guid iff they compare equal. -/
theorem guid_by_code (a b : BitInFormat) :
    a.guid.Data1 = 0x23170F69
    ∧ a.guid.Data2 = 0x40C1
    ∧ a.guid.Data3 = 0x278A
    ∧ a.guid.Data4 = [0x10, 0x00, 0x00, 0x01, 0x10, a.mValue, 0x00, 0x00]
    ∧ ((a.guid.Data4.getD 5 0).val : Int) = a.value
    ∧ (a.guid = b.guid ↔ a.operatorEq b = true) := by
  refine ⟨rfl, rfl, rfl, rfl, rfl, ?_⟩
  have hop : a.operatorEq b = true ↔ a.mValue = b.mValue := by
    simp only [BitInFormat.operatorEq, BitInFormat.value, beq_iff_eq, Int.natCast_inj]
    exact ⟨fun h => Fin.ext h, fun h => by rw [h]⟩
  rw [hop]
  simp [BitInFormat.guid]

/-! ## Lzma needs two bytes -/

/-- C23, the claim as stated fails: the stream that consists of the single byte `5D`,
positioned at its start, has no second byte, so its first two bytes are not `5D 00`, yet
`detectFormatFromSig` returns Lzma: the short read leaves the other seven bytes of the
signature zero and the eight-byte lookup hits the Lzma key. -/
theorem detectFormatFromSig_lzma_one_byte_counterexample :
    (⟨[0x5D], 0⟩ : IInStream).pos = 0
    ∧ (⟨[0x5D], 0⟩ : IInStream).content.length = 1
    ∧ bytesAt (⟨[0x5D], 0⟩ : IInStream).content 0 2 ≠ [0x5D, 0x00]
    ∧ (readSignature ⟨[0x5D], 0⟩ SIGNATURE_SIZE).1 = 0x5D00000000000000
    ∧ (detectFormatFromSig ⟨[0x5D], 0⟩).1 = .ok Lzma := by
  decide

/-- C23 as amended: for a stream positioned at its start the zero-offset phase compares
prefixes of 8 down to 2 bytes of the zero-padded first eight bytes, so
`detectFormatFromSig` returns Lzma only when the first byte is `5D` and the second byte,
read as `00` when the stream has a single byte, is `00`: the first two bytes are `5D 00`
or the stream is the single byte `5D`. A stream whose first byte is `5D` and whose second
byte is non-zero is never reported as Lzma. -/
theorem detectFormatFromSig_lzma (stream : IInStream) (hpos : stream.pos = 0) :
    ((detectFormatFromSig stream).1 = .ok Lzma →
        (∃ k, 2 ≤ k ∧ k ≤ 8
          ∧ clearLow (paddedSignature (bytesAt stream.content 0 8)) k = 0x5D00000000000000)
        ∧ stream.content.getD 0 0 = 0x5D ∧ stream.content.getD 1 0 = 0x00
        ∧ (bytesAt stream.content 0 2 = [0x5D, 0x00] ∨ stream.content = [0x5D]))
    ∧ (∀ (b : Byte) (rest : List Byte), stream.content = 0x5D :: b :: rest → b ≠ 0 →
        (detectFormatFromSig stream).1 ≠ .ok Lzma) := by
  have hmain : (detectFormatFromSig stream).1 = .ok Lzma →
      stream.content.getD 0 0 = 0x5D ∧ stream.content.getD 1 0 = 0x00 := by
    intro h
    have hz := zeroOffsetMatch_of_detect_lzma stream h
    rw [hpos] at hz
    obtain ⟨h0, h1⟩ := leading_bytes_of_lzma _ hz
    have t0 : (bytesAt stream.content 0 8).getD 0 0 = stream.content.getD 0 0 := by
      simp only [bytesAt, List.drop_zero]
      rw [List.getD_eq_getElem?_getD, List.getD_eq_getElem?_getD,
        List.getElem?_take_of_lt (by decide)]
    have t1 : (bytesAt stream.content 0 8).getD 1 0 = stream.content.getD 1 0 := by
      simp only [bytesAt, List.drop_zero]
      rw [List.getD_eq_getElem?_getD, List.getD_eq_getElem?_getD,
        List.getElem?_take_of_lt (by decide)]
    rw [t0] at h0
    rw [t1] at h1
    exact ⟨h0, h1⟩
  constructor
  · intro h
    obtain ⟨h0, h1⟩ := hmain h
    refine ⟨?_, h0, h1, ?_⟩
    · have hz := zeroOffsetMatch_of_detect_lzma stream h
      rw [hpos] at hz
      unfold zeroOffsetMatch at hz
      obtain ⟨k, hk, hfind⟩ := List.exists_of_findSome?_eq_some hz
      have hkey := lzma_only_key.1 _ (common_signatures_find_mem _ _ hfind) rfl
      simp only [List.mem_cons, List.mem_singleton, List.not_mem_nil, or_false] at hk
      exact ⟨k, by omega, by omega, hkey⟩
    · rcases hc : stream.content with _ | ⟨a, _ | ⟨b, rest⟩⟩
      · rw [hc] at h0
        exact absurd h0 (by decide)
      · rw [hc] at h0
        right
        have : a = 0x5D := h0
        rw [this]
      · rw [hc] at h0 h1
        left
        have ha : a = 0x5D := h0
        have hb : b = 0x00 := h1
        rw [ha, hb]
        rfl
  · intro b rest hcontent hb h
    have h1 := (hmain h).2
    rw [hcontent] at h1
    exact hb h1

/-- Witness for C23 as amended: the stream `5D 00 00 01`, positioned at its start, is
detected as Lzma, through its three-byte prefix `5D 00 00`; its first two bytes are
`5D 00`. -/
theorem detectFormatFromSig_lzma_witness :
    (detectFormatFromSig ⟨[0x5D, 0x00, 0x00, 0x01], 0⟩).1 = .ok Lzma
    ∧ bytesAt [0x5D, 0x00, 0x00, 0x01] 0 2 = [0x5D, 0x00]
    ∧ (detectFormatFromSig ⟨[0x5D, 0x01], 0⟩).1 ≠ .ok Lzma :=
  ⟨by decide,
    ((detectFormatFromSig_lzma ⟨[0x5D, 0x00, 0x00, 0x01], 0⟩ rfl).1 (by decide)).2.2.2.resolve_right
      (by decide),
    (detectFormatFromSig_lzma ⟨[0x5D, 0x01], 0⟩ rfl).2 0x01 [] rfl (by decide)⟩

end BitFormat

/-! ## Increment and comparison of archive offsets -/

/-- C24: for every `BitArchiveItemOffset` `x` with item index `i`, pre-increment sets the
index of `x` to `i + 1` modulo `2 ^ 32` and yields `x` itself; post-increment returns a
copy whose index is `i` and leaves `x` with index `i + 1` modulo `2 ^ 32`; both leave the
archive pointer as it was, so the two forms have the same effect on `x`. -/
theorem BitArchiveItemOffset.increment_effect (x : BitArchiveItemOffset) :
    x.preIncrement.2.mItemIndex = (x.mItemIndex + 1) % 2 ^ 32
    ∧ x.preIncrement.1 = x.preIncrement.2
    ∧ x.preIncrement.2.mArc = x.mArc
    ∧ x.postIncrement.1 = x
    ∧ x.postIncrement.1.mItemIndex = x.mItemIndex
    ∧ x.postIncrement.2.mItemIndex = (x.mItemIndex + 1) % 2 ^ 32
    ∧ x.postIncrement.2.mArc = x.mArc
    ∧ x.postIncrement.2 = x.preIncrement.2
    ∧ (x.mItemIndex < 2 ^ 32 - 1 → x.preIncrement.2.mItemIndex = x.mItemIndex + 1)
    ∧ (x.mItemIndex = 2 ^ 32 - 1 → x.preIncrement.2.mItemIndex = 0) := by
  refine ⟨rfl, rfl, rfl, rfl, rfl, rfl, rfl, rfl, ?_, ?_⟩
  · intro h
    show (x.mItemIndex + 1) % 2 ^ 32 = x.mItemIndex + 1
    exact Nat.mod_eq_of_lt (by omega)
  · intro h
    show (x.mItemIndex + 1) % 2 ^ 32 = 0
    rw [h]
    rfl

/-- Witness for C24: an offset with the largest index `0xFFFFFFFF` wraps to index 0 under
either increment, and post-increment returns the offset as it was. -/
theorem BitArchiveItemOffset.increment_effect_witness :
    (BitArchiveItemOffset.new 0xFFFFFFFF 7).preIncrement.2.mItemIndex = 0
    ∧ (BitArchiveItemOffset.new 0xFFFFFFFF 7).postIncrement.1
        = BitArchiveItemOffset.new 0xFFFFFFFF 7
    ∧ (BitArchiveItemOffset.new 41 7).postIncrement.2.mItemIndex = 42 :=
  ⟨(BitArchiveItemOffset.increment_effect (BitArchiveItemOffset.new 0xFFFFFFFF 7)).2.2.2.2.2.2.2.2.2
      (by decide),
    (BitArchiveItemOffset.increment_effect (BitArchiveItemOffset.new 0xFFFFFFFF 7)).2.2.2.1,
    ((BitArchiveItemOffset.increment_effect (BitArchiveItemOffset.new 41 7)).2.2.2.2.2.1).trans
      (by decide)⟩

/-- C25: two `BitArchiveItemOffset` values compare equal iff their item indices are equal,
whichever archives they point to (the same index with two different archives, or with a
null archive, compares equal); `!=` is the negation of `==`; and an offset after an
increment is unequal to its previous value. -/
theorem BitArchiveItemOffset.operatorEq_by_index (x y : BitArchiveItemOffset) :
    (x.operatorEq y = true ↔ x.mItemIndex = y.mItemIndex)
    ∧ (x.operatorNe y = true ↔ ¬ (x.operatorEq y = true))
    ∧ (∀ (i : Nat) (arc₁ arc₂ : Option Nat),
        (BitArchiveItemOffset.mk i arc₁).operatorEq (BitArchiveItemOffset.mk i arc₂) = true)
    ∧ (∀ (i arc : Nat),
        (BitArchiveItemOffset.mk i none).operatorEq (BitArchiveItemOffset.mk i (some arc)) = true
        ∧ (BitArchiveItemOffset.mk i (some arc)).operatorEq (BitArchiveItemOffset.mk i none)
            = true)
    ∧ x.preIncrement.2.operatorEq x = false
    ∧ x.preIncrement.2.operatorNe x = true
    ∧ x.postIncrement.2.operatorEq x.postIncrement.1 = false := by
  have hne : x.preIncrement.2.operatorEq x = false := by
    simp only [BitArchiveItemOffset.operatorEq, BitArchiveItemOffset.preIncrement,
      beq_eq_false_iff_ne, ne_eq]
    omega
  refine ⟨by simp [BitArchiveItemOffset.operatorEq], by simp [BitArchiveItemOffset.operatorNe],
    ?_, ?_, hne, ?_, hne⟩
  · intro i arc₁ arc₂
    simp [BitArchiveItemOffset.operatorEq]
  · intro i arc
    simp [BitArchiveItemOffset.operatorEq]
  · simp [BitArchiveItemOffset.operatorNe, hne]

/-- Witness for C25: index 3 in the archive at address 1 equals index 3 in the archive at
address 2 and index 3 with a null archive, and differs from index 4. -/
theorem BitArchiveItemOffset.operatorEq_by_index_witness :
    (BitArchiveItemOffset.mk 3 (some 1)).operatorEq (BitArchiveItemOffset.mk 3 (some 2)) = true
    ∧ (BitArchiveItemOffset.mk 3 (some 1)).operatorEq (BitArchiveItemOffset.mk 3 none) = true
    ∧ (BitArchiveItemOffset.mk 3 (some 1)).operatorNe (BitArchiveItemOffset.mk 4 (some 1))
        = true :=
  ⟨(BitArchiveItemOffset.operatorEq_by_index ⟨3, some 1⟩ ⟨3, some 2⟩).1.mpr rfl,
    (BitArchiveItemOffset.operatorEq_by_index ⟨3, some 1⟩ ⟨3, none⟩).1.mpr rfl,
    (BitArchiveItemOffset.operatorEq_by_index ⟨3, some 1⟩ ⟨4, some 1⟩).2.1.mpr (by decide)⟩

end bit7z
